import Mathlib

/-!
Verification of the on-shelf-availability data-preparation pipeline
(src/Codes/On-Shelf_Availability_1.py).

The pipeline is embedded shallowly as pure list-processing functions:
dates are day numbers (Nat), identifiers are Int, nullable integer
measures are Option Int.  The sequential list semantics is the canonical
single-threaded reading of the dataframe program: a dataframe is a list
of rows, groupBy/last keeps the last value in row order, the window
function LAST(c, True) OVER (PARTITION BY store_id, sku ORDER BY date)
yields the non-null value of c at the greatest date at or before the
current row within the partition of the current row.
-/

set_option maxHeartbeats 1000000

namespace OSA

/-- A raw inventory observation row, per the inventory schema of the
source: date, store_id, sku, product_category and nine nullable integer
measures. -/
structure Obs where
  date : Nat
  store_id : Int
  sku : Int
  product_category : String
  total_sales_units : Option Int
  on_hand_inventory_units : Option Int
  replenishment_units : Option Int
  inventory_pipeline : Option Int
  units_in_transit : Option Int
  units_in_dc : Option Int
  units_on_order : Option Int
  units_under_promotion : Option Int
  shelf_capacity : Option Int
  deriving DecidableEq, Repr

/-- A row of the dense grid (the result of the cross join of dates and
store-sku pairs, left-outer joined with the observations).  The
product_category comes from the store-sku side, hence is not nullable
here; the measures are nullable. -/
structure Grid where
  date : Nat
  store_id : Int
  sku : Int
  product_category : String
  total_sales_units : Option Int
  on_hand_inventory_units : Option Int
  replenishment_units : Option Int
  inventory_pipeline : Option Int
  units_in_transit : Option Int
  units_in_dc : Option Int
  units_on_order : Option Int
  units_under_promotion : Option Int
  shelf_capacity : Option Int
  deriving DecidableEq, Repr

/-- A finalized row: a grid row with the two derived flag columns added
by the flag-derivation step (the source encodes the flags as the
integers 0 and 1). -/
structure Final extends Grid where
  promotion_flag : Int
  replenishment_flag : Int
  deriving DecidableEq, Repr

/-- The nine measure columns of the inventory schema. -/
inductive Field where
  | total_sales_units
  | on_hand_inventory_units
  | replenishment_units
  | inventory_pipeline
  | units_in_transit
  | units_in_dc
  | units_on_order
  | units_under_promotion
  | shelf_capacity
  deriving DecidableEq, Repr, Fintype

/-- Read a measure column of a grid row. -/
def getF : Field → Grid → Option Int
  | .total_sales_units, r => r.total_sales_units
  | .on_hand_inventory_units, r => r.on_hand_inventory_units
  | .replenishment_units, r => r.replenishment_units
  | .inventory_pipeline, r => r.inventory_pipeline
  | .units_in_transit, r => r.units_in_transit
  | .units_in_dc, r => r.units_in_dc
  | .units_on_order, r => r.units_on_order
  | .units_under_promotion, r => r.units_under_promotion
  | .shelf_capacity, r => r.shelf_capacity

/-- Write a measure column of a grid row. -/
def setF : Field → Option Int → Grid → Grid
  | .total_sales_units, v, r => { r with total_sales_units := v }
  | .on_hand_inventory_units, v, r => { r with on_hand_inventory_units := v }
  | .replenishment_units, v, r => { r with replenishment_units := v }
  | .inventory_pipeline, v, r => { r with inventory_pipeline := v }
  | .units_in_transit, v, r => { r with units_in_transit := v }
  | .units_in_dc, v, r => { r with units_in_dc := v }
  | .units_on_order, v, r => { r with units_on_order := v }
  | .units_under_promotion, v, r => { r with units_under_promotion := v }
  | .shelf_capacity, v, r => { r with shelf_capacity := v }

/-- Minimum observed date (f.min of the date column): none on an empty
input. -/
def minDate : List Obs → Option Nat
  | [] => none
  | o :: rest =>
    match minDate rest with
    | none => some o.date
    | some m => some (Nat.min o.date m)

/-- Maximum observed date (f.max of the date column): none on an empty
input. -/
def maxDate : List Obs → Option Nat
  | [] => none
  | o :: rest =>
    match maxDate rest with
    | none => some o.date
    | some m => some (Nat.max o.date m)

/-- spark.range((end_date - start_date).days + 1) with the start date
added to each range value: the contiguous list of day numbers from s to
e. -/
def datesFor (s e : Nat) : List Nat :=
  (List.range (e - s + 1)).map (fun i => s + i)

/-- The dates dataframe of the source: defined only when the input is
non-empty (on an empty input the source program faults when subtracting
the null start and end dates, producing no output). -/
def dates (obs : List Obs) : Option (List Nat) :=
  match minDate obs, maxDate obs with
  | some s, some e => some (datesFor s e)
  | _, _ => none

/-- Worker for distinctKeys: keys already seen are skipped, new keys
are emitted in order of first appearance. -/
def distinctKeysAux (seen : List (Int × Int)) : List Obs → List (Int × Int)
  | [] => []
  | o :: rest =>
    if (o.store_id, o.sku) ∈ seen then distinctKeysAux seen rest
    else (o.store_id, o.sku) :: distinctKeysAux ((o.store_id, o.sku) :: seen) rest

/-- The distinct (store_id, sku) pairs of the input, in order of first
appearance (the groupBy keys of the store_skus dataframe). -/
def distinctKeys (obs : List Obs) : List (Int × Int) :=
  distinctKeysAux [] obs

/-- f.last of product_category over the rows of one (store_id, sku)
group: the category of the last row in row order with that key. -/
def lastCat (obs : List Obs) (st sk : Int) : Option String :=
  obs.foldl
    (fun acc o => if o.store_id = st ∧ o.sku = sk then some o.product_category else acc)
    none

/-- One entry of the store-sku universe: a (store_id, sku) pair with the
category attached by the groupBy / last aggregation. -/
structure SKey where
  store_id : Int
  sku : Int
  product_category : String
  deriving DecidableEq, Repr

/-- The store_skus dataframe: distinct store-sku pairs, each with the
last category assigned to that pair (the aggregation
f.last of product_category). -/
def store_skus (obs : List Obs) : List SKey :=
  (distinctKeys obs).map (fun p => ⟨p.1, p.2, (lastCat obs p.1 p.2).getD ""⟩)

/-- The grid row built from a matching observation: the category comes
from the store-sku side (the source drops product_category from the
observation side before the join). -/
def obsMeasures (cat : String) (o : Obs) : Grid :=
  { date := o.date
    store_id := o.store_id
    sku := o.sku
    product_category := cat
    total_sales_units := o.total_sales_units
    on_hand_inventory_units := o.on_hand_inventory_units
    replenishment_units := o.replenishment_units
    inventory_pipeline := o.inventory_pipeline
    units_in_transit := o.units_in_transit
    units_in_dc := o.units_in_dc
    units_on_order := o.units_on_order
    units_under_promotion := o.units_under_promotion
    shelf_capacity := o.shelf_capacity }

/-- The grid row of a date and store-sku pair with no matching
observation: every measure is null. -/
def nullCell (d : Nat) (k : SKey) : Grid :=
  { date := d
    store_id := k.store_id
    sku := k.sku
    product_category := k.product_category
    total_sales_units := none
    on_hand_inventory_units := none
    replenishment_units := none
    inventory_pipeline := none
    units_in_transit := none
    units_in_dc := none
    units_on_order := none
    units_under_promotion := none
    shelf_capacity := none }

/-- The left-outer join at one (date, store-sku) cell of the skeleton:
one output row per matching observation, or a single all-null row when
no observation matches. -/
def joinCell (obs : List Obs) (d : Nat) (k : SKey) : List Grid :=
  match obs.filter (fun o => o.date = d ∧ o.store_id = k.store_id ∧ o.sku = k.sku) with
  | [] => [nullCell d k]
  | ms => ms.map (obsMeasures k.product_category)

/-- The inventory_with_gaps dataframe: the cross join of dates and
store_skus, left-outer joined with the observations on
(date, store_id, sku). -/
def inventory_with_gaps (ds : List Nat) (ks : List SKey) (obs : List Obs) : List Grid :=
  ds.flatMap (fun d => ks.flatMap (fun k => joinCell obs d k))

/-- Accumulator step selecting the row with the greatest date, with the
later row winning ties, over a traversal of candidate rows. -/
def pickLater (acc : Option Grid) (x : Grid) : Option Grid :=
  match acc with
  | none => some x
  | some y => if y.date ≤ x.date then some x else some y

/-- The window expression LAST(c, True) OVER (PARTITION BY store_id, sku
ORDER BY date) evaluated for the row with keys (st, sk) and date d: the
value of column c on the non-null candidate row of the partition with
the greatest date at or before d, or none when the partition holds no
non-null value of c at or before d. -/
def ffValue (c : Field) (g : List Grid) (st sk : Int) (d : Nat) : Option Int :=
  ((g.filter (fun x => x.store_id = st ∧ x.sku = sk ∧ x.date ≤ d ∧ (getF c x).isSome)).foldl
    pickLater none).bind (getF c)

/-- One iteration of the forward-fill loop: withColumn(c, LAST(c, True)
OVER (...)) applied to every row. -/
def forwardFillCol (c : Field) (g : List Grid) : List Grid :=
  g.map (fun r => setF c (ffValue c g r.store_id r.sku r.date) r)

/-- fillna(0, cs) applied to a single row: each listed column has null
replaced by 0. -/
def zeroFillRow (cs : List Field) (r : Grid) : Grid :=
  cs.foldl (fun r c => setF c (some ((getF c r).getD 0)) r) r

/-- The columns forward-filled by the source loop, in loop order. -/
def state_fill_fields : List Field :=
  [.shelf_capacity, .on_hand_inventory_units]

/-- The columns given the default value 0 by the source fillna call, in
source order. -/
def flow_fill_fields : List Field :=
  [.total_sales_units, .units_under_promotion, .units_in_transit, .units_in_dc,
   .units_on_order, .replenishment_units, .inventory_pipeline]

/-- The imputation step as a function of the two column groups: the
forward-fill loop over the first group followed by fillna(0) over the
second group. -/
def applyImputation (stateCs flowCs : List Field) (g : List Grid) : List Grid :=
  (stateCs.foldl (fun rs c => forwardFillCol c rs) g).map (zeroFillRow flowCs)

/-- The inventory_cleansed dataframe: forward fill of shelf_capacity and
on_hand_inventory_units, then zero defaults for the seven flow
columns. -/
def inventory_cleansed (g : List Grid) : List Grid :=
  applyImputation state_fill_fields flow_fill_fields g

/-- The flag derivation of one row: CASE WHEN units_under_promotion > 0
THEN 1 ELSE 0 END and likewise for replenishment_units (in SQL a null
comparison is not true, so a null measure yields flag 0). -/
def flagRow (r : Grid) : Final :=
  { toGrid := r
    promotion_flag :=
      match r.units_under_promotion with
      | some v => if 0 < v then 1 else 0
      | none => 0
    replenishment_flag :=
      match r.replenishment_units with
      | some v => if 0 < v then 1 else 0
      | none => 0 }

/-- The inventory_final dataframe: the cleansed rows with the two flag
columns added. -/
def inventory_final (g : List Grid) : List Final :=
  g.map flagRow

/-- The whole pipeline: none models the fault of the source program on
an empty input (the subtraction of the null aggregate dates), in which
case no output at all is produced. -/
def pipeline (obs : List Obs) : Option (List Final) :=
  (dates obs).map
    (fun ds => inventory_final (inventory_cleansed (inventory_with_gaps ds (store_skus obs) obs)))

/-- Projection of a finalized row back to observation shape: the flag
columns are dropped, everything else is kept. -/
def projectObs (r : Final) : Obs :=
  { date := r.date
    store_id := r.store_id
    sku := r.sku
    product_category := r.product_category
    total_sales_units := r.total_sales_units
    on_hand_inventory_units := r.on_hand_inventory_units
    replenishment_units := r.replenishment_units
    inventory_pipeline := r.inventory_pipeline
    units_in_transit := r.units_in_transit
    units_in_dc := r.units_in_dc
    units_on_order := r.units_on_order
    units_under_promotion := r.units_under_promotion
    shelf_capacity := r.shelf_capacity }

/-- No two observations share the same (date, store_id, sku) key. -/
def UniqueKeys (obs : List Obs) : Prop :=
  List.Pairwise (fun a b => ¬(a.date = b.date ∧ a.store_id = b.store_id ∧ a.sku = b.sku)) obs

instance (obs : List Obs) : Decidable (UniqueKeys obs) := by
  unfold UniqueKeys; infer_instance

/-- No two grid rows share the same (date, store_id, sku) key. -/
def GridUniq (g : List Grid) : Prop :=
  List.Pairwise (fun a b => ¬(a.date = b.date ∧ a.store_id = b.store_id ∧ a.sku = b.sku)) g

instance (g : List Grid) : Decidable (GridUniq g) := by
  unfold GridUniq; infer_instance

/-- The value of column c on the unique grid row of partition (st, sk)
at exactly date d, or none when there is no such row or its value is
null. -/
def valAt (c : Field) (g : List Grid) (st sk : Int) (d : Nat) : Option Int :=
  (g.find? (fun x => x.date = d ∧ x.store_id = st ∧ x.sku = sk)).bind (getF c)

/-- Specification-side carry-forward, written from the words of the
specification: the most recent non-null value of the column at an
earlier or equal date within the partition of the given key, descending
day by day. -/
def specCarry (c : Field) (g : List Grid) (st sk : Int) : Nat → Option Int
  | 0 => valAt c g st sk 0
  | d + 1 =>
    match valAt c g st sk (d + 1) with
    | some v => some v
    | none => specCarry c g st sk d

/-- Specification-side category choice, written from the words of the
specification: the category of the chronologically last observation of
the key, ties broken towards the later row in input order. -/
def chronLastCat (obs : List Obs) (st sk : Int) : Option String :=
  ((obs.filter (fun o => o.store_id = st ∧ o.sku = sk)).foldl
    (fun acc o =>
      match acc with
      | none => some o
      | some y => if y.date ≤ o.date then some o else some y)
    none).map (fun o => o.product_category)

/-- Read a measure column of an observation. -/
def obsF : Field → Obs → Option Int
  | .total_sales_units, o => o.total_sales_units
  | .on_hand_inventory_units, o => o.on_hand_inventory_units
  | .replenishment_units, o => o.replenishment_units
  | .inventory_pipeline, o => o.inventory_pipeline
  | .units_in_transit, o => o.units_in_transit
  | .units_in_dc, o => o.units_in_dc
  | .units_on_order, o => o.units_on_order
  | .units_under_promotion, o => o.units_under_promotion
  | .shelf_capacity, o => o.shelf_capacity

/-- The single grid row of one (date, store-sku) cell when observation
keys are unique: the measures of the unique matching observation, or
all-null when none matches. -/
def cellRow (obs : List Obs) (d : Nat) (k : SKey) : Grid :=
  match obs.find? (fun o => o.date = d ∧ o.store_id = k.store_id ∧ o.sku = k.sku) with
  | some o => obsMeasures k.product_category o
  | none => nullCell d k

/-- The per-row effect of the whole cleansing step on a grid g: the two
forward-filled state columns, then the zero defaults for the flow
columns. -/
def cleanRow (g : List Grid) (r : Grid) : Grid :=
  zeroFillRow flow_fill_fields
    (setF .on_hand_inventory_units (ffValue .on_hand_inventory_units g r.store_id r.sku r.date)
      (setF .shelf_capacity (ffValue .shelf_capacity g r.store_id r.sku r.date) r))

/-- An observation at day 0 for store 1, sku 1. -/
def exSingle : Obs :=
  { date := 0, store_id := 1, sku := 1, product_category := "a",
    total_sales_units := some 3, on_hand_inventory_units := some 50,
    replenishment_units := none, inventory_pipeline := none,
    units_in_transit := none, units_in_dc := none, units_on_order := none,
    units_under_promotion := some 2, shelf_capacity := some 10 }

/-- A second observation with the same (date, store_id, sku) key as
exSingle but different measures. -/
def exDup : Obs :=
  { exSingle with total_sales_units := some 7, on_hand_inventory_units := some 40 }

/-- An observation at day 1 with category A. -/
def exLate : Obs :=
  { exSingle with date := 1, product_category := "A" }

/-- An observation at day 0, for the same store and sku as exLate,
with category B.  Listed after exLate, it is chronologically earlier
but later in input order. -/
def exEarly : Obs :=
  { exSingle with date := 0, product_category := "B" }

/-- A grid row at day 0 whose on_hand_inventory_units is null. -/
def exGridNull : Grid :=
  { date := 0, store_id := 1, sku := 1, product_category := "a",
    total_sales_units := none, on_hand_inventory_units := none,
    replenishment_units := none, inventory_pipeline := none,
    units_in_transit := none, units_in_dc := none, units_on_order := none,
    units_under_promotion := none, shelf_capacity := some 4 }

/-- A two-row grid for one key: day 0 has on_hand 5 and a null shelf
capacity, day 1 has both null. -/
def exGrid2 : List Grid :=
  [{ date := 0, store_id := 1, sku := 1, product_category := "a",
     total_sales_units := some 3, on_hand_inventory_units := some 5,
     replenishment_units := none, inventory_pipeline := none,
     units_in_transit := none, units_in_dc := none, units_on_order := none,
     units_under_promotion := none, shelf_capacity := none },
   { date := 1, store_id := 1, sku := 1, product_category := "a",
     total_sales_units := none, on_hand_inventory_units := none,
     replenishment_units := none, inventory_pipeline := none,
     units_in_transit := none, units_in_dc := none, units_on_order := none,
     units_under_promotion := none, shelf_capacity := none }]

/-- Rebuild an observation from a grid row (all fields kept). -/
def gridToObs (r : Grid) : Obs :=
  { date := r.date
    store_id := r.store_id
    sku := r.sku
    product_category := r.product_category
    total_sales_units := r.total_sales_units
    on_hand_inventory_units := r.on_hand_inventory_units
    replenishment_units := r.replenishment_units
    inventory_pipeline := r.inventory_pipeline
    units_in_transit := r.units_in_transit
    units_in_dc := r.units_in_dc
    units_on_order := r.units_on_order
    units_under_promotion := r.units_under_promotion
    shelf_capacity := r.shelf_capacity }

/-- The dense grid in structured form (equal to inventory_with_gaps for
key-unique inputs, by grid_eq). -/
def gridOf (obs : List Obs) (ds : List Nat) : List Grid :=
  ds.flatMap (fun d => (store_skus obs).map (fun k => cellRow obs d k))

/-- The cleansed grid in structured form. -/
def cleanGrid (obs : List Obs) (ds : List Nat) : List Grid :=
  (gridOf obs ds).map (cleanRow (gridOf obs ds))

/-! ### Lemmas about the date range -/

theorem minDate_nil : minDate [] = none := rfl

theorem minDate_cons (o : Obs) (rest : List Obs) :
    minDate (o :: rest) =
      match minDate rest with
      | none => some o.date
      | some m => some (Nat.min o.date m) := rfl

theorem maxDate_nil : maxDate [] = none := rfl

theorem maxDate_cons (o : Obs) (rest : List Obs) :
    maxDate (o :: rest) =
      match maxDate rest with
      | none => some o.date
      | some m => some (Nat.max o.date m) := rfl

theorem minDate_eq_none_iff {obs : List Obs} : minDate obs = none ↔ obs = [] := by
  cases obs with
  | nil => simp [minDate_nil]
  | cons o rest => rw [minDate_cons]; cases h : minDate rest <;> simp

theorem maxDate_eq_none_iff {obs : List Obs} : maxDate obs = none ↔ obs = [] := by
  cases obs with
  | nil => simp [maxDate_nil]
  | cons o rest => rw [maxDate_cons]; cases h : maxDate rest <;> simp

theorem minDate_le {obs : List Obs} {s : Nat} (h : minDate obs = some s) :
    ∀ o ∈ obs, s ≤ o.date := by
  induction obs generalizing s with
  | nil => simp [minDate_nil] at h
  | cons o rest ih =>
    rw [minDate_cons] at h
    intro x hx
    rcases List.mem_cons.mp hx with rfl | hx
    · cases hr : minDate rest with
      | none =>
        rw [hr] at h
        have h2 : x.date = s := Option.some.inj h
        omega
      | some m =>
        rw [hr] at h
        have h2 : min x.date m = s := Option.some.inj h
        rcases Nat.le_total x.date m with hle | hle
        · rw [Nat.min_eq_left hle] at h2; omega
        · rw [Nat.min_eq_right hle] at h2; omega
    · cases hr : minDate rest with
      | none =>
        have : rest = [] := minDate_eq_none_iff.mp hr
        rw [this] at hx; simp at hx
      | some m =>
        rw [hr] at h
        have h2 : min o.date m = s := Option.some.inj h
        have h1 := ih hr x hx
        rcases Nat.le_total o.date m with hle | hle
        · rw [Nat.min_eq_left hle] at h2; omega
        · rw [Nat.min_eq_right hle] at h2; omega

theorem minDate_mem {obs : List Obs} {s : Nat} (h : minDate obs = some s) :
    ∃ o ∈ obs, o.date = s := by
  induction obs generalizing s with
  | nil => simp [minDate_nil] at h
  | cons o rest ih =>
    rw [minDate_cons] at h
    cases hr : minDate rest with
    | none =>
      rw [hr] at h
      exact ⟨o, by simp, Option.some.inj h⟩
    | some m =>
      rw [hr] at h
      have h2 : min o.date m = s := Option.some.inj h
      rcases Nat.le_total o.date m with hle | hle
      · rw [Nat.min_eq_left hle] at h2
        exact ⟨o, by simp, h2⟩
      · rw [Nat.min_eq_right hle] at h2
        obtain ⟨x, hx, hxd⟩ := ih hr
        exact ⟨x, by simp [hx], by omega⟩

theorem maxDate_ge {obs : List Obs} {e : Nat} (h : maxDate obs = some e) :
    ∀ o ∈ obs, o.date ≤ e := by
  induction obs generalizing e with
  | nil => simp [maxDate_nil] at h
  | cons o rest ih =>
    rw [maxDate_cons] at h
    intro x hx
    rcases List.mem_cons.mp hx with rfl | hx
    · cases hr : maxDate rest with
      | none =>
        rw [hr] at h
        have h2 : x.date = e := Option.some.inj h
        omega
      | some m =>
        rw [hr] at h
        have h2 : max x.date m = e := Option.some.inj h
        rcases Nat.le_total x.date m with hle | hle
        · rw [Nat.max_eq_right hle] at h2; omega
        · rw [Nat.max_eq_left hle] at h2; omega
    · cases hr : maxDate rest with
      | none =>
        have : rest = [] := maxDate_eq_none_iff.mp hr
        rw [this] at hx; simp at hx
      | some m =>
        rw [hr] at h
        have h2 : max o.date m = e := Option.some.inj h
        have h1 := ih hr x hx
        rcases Nat.le_total o.date m with hle | hle
        · rw [Nat.max_eq_right hle] at h2; omega
        · rw [Nat.max_eq_left hle] at h2; omega

theorem maxDate_mem {obs : List Obs} {e : Nat} (h : maxDate obs = some e) :
    ∃ o ∈ obs, o.date = e := by
  induction obs generalizing e with
  | nil => simp [maxDate_nil] at h
  | cons o rest ih =>
    rw [maxDate_cons] at h
    cases hr : maxDate rest with
    | none =>
      rw [hr] at h
      exact ⟨o, by simp, Option.some.inj h⟩
    | some m =>
      rw [hr] at h
      have h2 : max o.date m = e := Option.some.inj h
      rcases Nat.le_total m o.date with hle | hle
      · rw [Nat.max_eq_left hle] at h2
        exact ⟨o, by simp, h2⟩
      · rw [Nat.max_eq_right hle] at h2
        obtain ⟨x, hx, hxd⟩ := ih hr
        exact ⟨x, by simp [hx], by omega⟩

theorem minDate_eq_of {obs : List Obs} {s : Nat}
    (hmem : ∃ o ∈ obs, o.date = s) (hlb : ∀ o ∈ obs, s ≤ o.date) :
    minDate obs = some s := by
  obtain ⟨o, ho, rfl⟩ := hmem
  cases h : minDate obs with
  | none => rw [minDate_eq_none_iff.mp h] at ho; simp at ho
  | some m =>
    have h1 := minDate_le h o ho
    obtain ⟨x, hx, hxd⟩ := minDate_mem h
    have h2 := hlb x hx
    have h3 : m = o.date := by omega
    rw [h3]

theorem maxDate_eq_of {obs : List Obs} {e : Nat}
    (hmem : ∃ o ∈ obs, o.date = e) (hub : ∀ o ∈ obs, o.date ≤ e) :
    maxDate obs = some e := by
  obtain ⟨o, ho, rfl⟩ := hmem
  cases h : maxDate obs with
  | none => rw [maxDate_eq_none_iff.mp h] at ho; simp at ho
  | some m =>
    have h1 := maxDate_ge h o ho
    obtain ⟨x, hx, hxd⟩ := maxDate_mem h
    have h2 := hub x hx
    have h3 : m = o.date := by omega
    rw [h3]

theorem minDate_le_maxDate {obs : List Obs} {s e : Nat}
    (hs : minDate obs = some s) (he : maxDate obs = some e) : s ≤ e := by
  obtain ⟨o, ho, hod⟩ := minDate_mem hs
  have := maxDate_ge he o ho
  omega

theorem datesFor_length (s e : Nat) : (datesFor s e).length = e - s + 1 := by
  simp [datesFor]

theorem datesFor_get (s e : Nat) (i : Nat) (h : i < (datesFor s e).length) :
    (datesFor s e).get ⟨i, h⟩ = s + i := by
  simp [datesFor]

theorem mem_datesFor {s e d : Nat} (hse : s ≤ e) : d ∈ datesFor s e ↔ s ≤ d ∧ d ≤ e := by
  simp only [datesFor, List.mem_map, List.mem_range]
  constructor
  · rintro ⟨i, hi, rfl⟩; omega
  · rintro ⟨h1, h2⟩; exact ⟨d - s, by omega, by omega⟩

theorem datesFor_nodup (s e : Nat) : (datesFor s e).Nodup :=
  (List.nodup_range _).map (fun _ _ h => by omega)

theorem datesFor_pairwise (s e : Nat) : (datesFor s e).Pairwise (· < ·) :=
  (List.pairwise_lt_range _).map _ (fun _ _ h => by omega)

theorem datesFor_ne_nil (s e : Nat) : datesFor s e ≠ [] := by
  intro h
  have := datesFor_length s e
  rw [h] at this
  simp at this

/-! ### Lemmas about unique keys, filter and find? -/

theorem countP_le_one_filter_eq {α : Type} {p : α → Bool} {l : List α}
    (h : l.countP p ≤ 1) : l.filter p = (l.find? p).toList := by
  induction l with
  | nil => rfl
  | cons a l ih =>
    by_cases hpa : p a
    · have h0 : l.countP p = 0 := by
        rw [List.countP_cons_of_pos _ _ hpa] at h
        omega
      have : l.filter p = [] := by
        rw [List.filter_eq_nil_iff]
        intro x hx hpx
        have := List.countP_eq_zero.mp h0 x hx
        exact this hpx
      rw [List.filter_cons_of_pos hpa, List.find?_cons_of_pos _ hpa, this]
      rfl
    · rw [List.filter_cons_of_neg hpa, List.find?_cons_of_neg _ hpa]
      exact ih (by rwa [List.countP_cons_of_neg _ _ hpa] at h)

theorem countP_le_one_find?_eq {α : Type} {p : α → Bool} {l : List α}
    (h : l.countP p ≤ 1) {x : α} (hx : x ∈ l) (hpx : p x) : l.find? p = some x := by
  have hf := countP_le_one_filter_eq h
  have hxf : x ∈ l.filter p := List.mem_filter.mpr ⟨hx, hpx⟩
  rw [hf] at hxf
  cases hfind : l.find? p with
  | none => rw [hfind] at hxf; simp at hxf
  | some y => rw [hfind] at hxf; simp at hxf; rw [hxf]

theorem obs_countP_le_one {obs : List Obs} (h : UniqueKeys obs)
    (d : Nat) (st sk : Int) :
    obs.countP (fun o => o.date = d ∧ o.store_id = st ∧ o.sku = sk) ≤ 1 := by
  induction obs with
  | nil => simp
  | cons o rest ih =>
    have hp := (List.pairwise_cons.mp h).1
    have ht := (List.pairwise_cons.mp h).2
    by_cases hpo : (o.date = d ∧ o.store_id = st ∧ o.sku = sk)
    · have h0 : rest.countP (fun x => x.date = d ∧ x.store_id = st ∧ x.sku = sk) = 0 := by
        rw [List.countP_eq_zero]
        intro x hx hpx
        simp only [decide_eq_true_eq] at hpx
        exact hp x hx ⟨by omega, by rw [hpo.2.1, hpx.2.1], by rw [hpo.2.2, hpx.2.2]⟩
      rw [List.countP_cons_of_pos _ _ (by simpa using hpo), h0]
    · rw [List.countP_cons_of_neg _ _ (by simpa using hpo)]
      exact ih ht

theorem grid_countP_le_one {g : List Grid} (h : GridUniq g)
    (d : Nat) (st sk : Int) :
    g.countP (fun x => x.date = d ∧ x.store_id = st ∧ x.sku = sk) ≤ 1 := by
  induction g with
  | nil => simp
  | cons r rest ih =>
    have hp := (List.pairwise_cons.mp h).1
    have ht := (List.pairwise_cons.mp h).2
    by_cases hpr : (r.date = d ∧ r.store_id = st ∧ r.sku = sk)
    · have h0 : rest.countP (fun x => x.date = d ∧ x.store_id = st ∧ x.sku = sk) = 0 := by
        rw [List.countP_eq_zero]
        intro x hx hpx
        simp only [decide_eq_true_eq] at hpx
        exact hp x hx ⟨by omega, by rw [hpr.2.1, hpx.2.1], by rw [hpr.2.2, hpx.2.2]⟩
      rw [List.countP_cons_of_pos _ _ (by simpa using hpr), h0]
    · rw [List.countP_cons_of_neg _ _ (by simpa using hpr)]
      exact ih ht

/-! ### Structure of the dense grid under unique observation keys -/

theorem getF_obsMeasures (c : Field) (cat : String) (o : Obs) :
    getF c (obsMeasures cat o) = obsF c o := by
  cases c <;> rfl

theorem getF_nullCell (c : Field) (d : Nat) (k : SKey) :
    getF c (nullCell d k) = none := by
  cases c <;> rfl

theorem joinCell_eq {obs : List Obs} (h : UniqueKeys obs) (d : Nat) (k : SKey) :
    joinCell obs d k = [cellRow obs d k] := by
  have hc := obs_countP_le_one h d k.store_id k.sku
  have hf := countP_le_one_filter_eq hc
  cases hfind : obs.find? (fun o => decide (o.date = d ∧ o.store_id = k.store_id ∧ o.sku = k.sku)) with
  | none =>
    have hfil : obs.filter (fun o => decide (o.date = d ∧ o.store_id = k.store_id ∧ o.sku = k.sku)) = [] := by
      rw [hf, hfind]; rfl
    simp only [joinCell, cellRow, hfil, hfind]
  | some o =>
    have hfil : obs.filter (fun o => decide (o.date = d ∧ o.store_id = k.store_id ∧ o.sku = k.sku)) = [o] := by
      rw [hf, hfind]; rfl
    simp only [joinCell, cellRow, hfil, hfind, List.map_cons, List.map_nil]

theorem grid_eq {obs : List Obs} (h : UniqueKeys obs) (ds : List Nat) (ks : List SKey) :
    inventory_with_gaps ds ks obs = ds.flatMap (fun d => ks.map (fun k => cellRow obs d k)) := by
  unfold inventory_with_gaps
  refine List.flatMap_congr (fun d _ => ?_)
  induction ks with
  | nil => rfl
  | cons k ks ih =>
    rw [List.flatMap_cons, List.map_cons, joinCell_eq h, ih]
    rfl

theorem cellRow_date (obs : List Obs) (d : Nat) (k : SKey) : (cellRow obs d k).date = d := by
  unfold cellRow
  cases hfind : obs.find? (fun o => decide (o.date = d ∧ o.store_id = k.store_id ∧ o.sku = k.sku)) with
  | none => rfl
  | some o =>
    have hp := List.find?_some hfind
    simp only [decide_eq_true_eq] at hp
    simpa [obsMeasures] using hp.1

theorem cellRow_store_id (obs : List Obs) (d : Nat) (k : SKey) :
    (cellRow obs d k).store_id = k.store_id := by
  unfold cellRow
  cases hfind : obs.find? (fun o => decide (o.date = d ∧ o.store_id = k.store_id ∧ o.sku = k.sku)) with
  | none => rfl
  | some o =>
    have hp := List.find?_some hfind
    simp only [decide_eq_true_eq] at hp
    simpa [obsMeasures] using hp.2.1

theorem cellRow_sku (obs : List Obs) (d : Nat) (k : SKey) : (cellRow obs d k).sku = k.sku := by
  unfold cellRow
  cases hfind : obs.find? (fun o => decide (o.date = d ∧ o.store_id = k.store_id ∧ o.sku = k.sku)) with
  | none => rfl
  | some o =>
    have hp := List.find?_some hfind
    simp only [decide_eq_true_eq] at hp
    simpa [obsMeasures] using hp.2.2

theorem cellRow_category (obs : List Obs) (d : Nat) (k : SKey) :
    (cellRow obs d k).product_category = k.product_category := by
  unfold cellRow
  cases hfind : obs.find? (fun o => decide (o.date = d ∧ o.store_id = k.store_id ∧ o.sku = k.sku)) with
  | none => rfl
  | some o => rfl

theorem length_flatMap_map {α β γ : Type} (ds : List α) (ks : List β) (f : α → β → γ) :
    (ds.flatMap (fun d => ks.map (f d))).length = ds.length * ks.length := by
  induction ds with
  | nil => simp
  | cons d ds ih =>
    rw [List.flatMap_cons, List.length_append, List.length_map, ih, List.length_cons]
    ring

theorem mem_grid_iff {obs : List Obs} {ds : List Nat} {ks : List SKey} {r : Grid} :
    r ∈ ds.flatMap (fun d => ks.map (fun k => cellRow obs d k)) ↔
      ∃ d ∈ ds, ∃ k ∈ ks, r = cellRow obs d k := by
  simp only [List.mem_flatMap, List.mem_map]
  constructor
  · rintro ⟨d, hd, k, hk, rfl⟩
    exact ⟨d, hd, k, hk, rfl⟩
  · rintro ⟨d, hd, k, hk, rfl⟩
    exact ⟨d, hd, k, hk, rfl⟩

theorem gridUniq_flatMap (obs : List Obs) (ds : List Nat) (ks : List SKey)
    (hds : ds.Nodup) (hks : (ks.map (fun k => (k.store_id, k.sku))).Nodup) :
    GridUniq (ds.flatMap (fun d => ks.map (fun k => cellRow obs d k))) := by
  induction ds with
  | nil => exact List.Pairwise.nil
  | cons d ds ih =>
    rw [List.flatMap_cons]
    unfold GridUniq
    rw [List.pairwise_append]
    refine ⟨?_, ih (List.nodup_cons.mp hds).2, ?_⟩
    · rw [List.pairwise_map]
      have hks' := (List.pairwise_map.mp hks)
      refine hks'.imp ?_
      intro k1 k2 hne hcon
      apply hne
      rw [Prod.mk.injEq]
      constructor
      · rw [← cellRow_store_id obs d k1, ← cellRow_store_id obs d k2]
        exact hcon.2.1
      · rw [← cellRow_sku obs d k1, ← cellRow_sku obs d k2]
        exact hcon.2.2
    · intro a ha b hb hcon
      obtain ⟨k1, hk1, rfl⟩ := List.mem_map.mp ha
      obtain ⟨d2, hd2, k2, hk2, rfl⟩ := mem_grid_iff.mp hb
      have h1 : d ∉ ds := (List.nodup_cons.mp hds).1
      have : d = d2 := by
        rw [← cellRow_date obs d k1, ← cellRow_date obs d2 k2]
        exact hcon.1
      rw [this] at h1
      exact h1 hd2

/-! ### The window function computes the carry-forward of the
specification -/

theorem foldl_pickLater_acc_spec (l : List Grid) :
    ∀ y : Grid, ∃ z, l.foldl pickLater (some y) = some z ∧ (z = y ∨ z ∈ l) ∧
      y.date ≤ z.date ∧ ∀ w ∈ l, w.date ≤ z.date := by
  induction l with
  | nil => intro y; exact ⟨y, rfl, Or.inl rfl, le_refl _, by simp⟩
  | cons x l ih =>
    intro y
    rw [List.foldl_cons]
    by_cases hxy : y.date ≤ x.date
    · have hpick : pickLater (some y) x = some x := by simp [pickLater, hxy]
      rw [hpick]
      obtain ⟨z, hz, hmem, hle, hub⟩ := ih x
      refine ⟨z, hz, ?_, by omega, ?_⟩
      · rcases hmem with rfl | hm
        · exact Or.inr (by simp)
        · exact Or.inr (by simp [hm])
      · intro w hw
        rcases List.mem_cons.mp hw with rfl | hw
        · omega
        · exact hub w hw
    · have hpick : pickLater (some y) x = some y := by simp [pickLater, hxy]
      rw [hpick]
      obtain ⟨z, hz, hmem, hle, hub⟩ := ih y
      refine ⟨z, hz, ?_, hle, ?_⟩
      · rcases hmem with rfl | hm
        · exact Or.inl rfl
        · exact Or.inr (by simp [hm])
      · intro w hw
        rcases List.mem_cons.mp hw with rfl | hw
        · omega
        · exact hub w hw

theorem foldl_pickLater_spec {l : List Grid} (h : l ≠ []) :
    ∃ z, l.foldl pickLater none = some z ∧ z ∈ l ∧ ∀ w ∈ l, w.date ≤ z.date := by
  cases l with
  | nil => exact absurd rfl h
  | cons x l =>
    rw [List.foldl_cons]
    have hpick : pickLater none x = some x := rfl
    rw [hpick]
    obtain ⟨z, hz, hmem, hle, hub⟩ := foldl_pickLater_acc_spec l x
    refine ⟨z, hz, ?_, ?_⟩
    · rcases hmem with rfl | hm
      · simp
      · simp [hm]
    · intro w hw
      rcases List.mem_cons.mp hw with rfl | hw
      · omega
      · exact hub w hw

theorem specCarry_zero (c : Field) (g : List Grid) (st sk : Int) :
    specCarry c g st sk 0 = valAt c g st sk 0 := rfl

theorem specCarry_succ (c : Field) (g : List Grid) (st sk : Int) (d : Nat) :
    specCarry c g st sk (d + 1) =
      match valAt c g st sk (d + 1) with
      | some v => some v
      | none => specCarry c g st sk d := rfl

theorem specCarry_eq_none {c : Field} {g : List Grid} {st sk : Int} {d : Nat}
    (h : ∀ d', d' ≤ d → valAt c g st sk d' = none) :
    specCarry c g st sk d = none := by
  induction d with
  | zero => rw [specCarry_zero]; exact h 0 (le_refl 0)
  | succ d ih =>
    rw [specCarry_succ, h (d + 1) (le_refl _)]
    exact ih (fun d' hd' => h d' (Nat.le_succ_of_le hd'))

theorem specCarry_eq_valAt {c : Field} {g : List Grid} {st sk : Int} (d0 : Nat) {d : Nat}
    (hle : d0 ≤ d) (hsome : valAt c g st sk d0 ≠ none)
    (hnone : ∀ d', d0 < d' → d' ≤ d → valAt c g st sk d' = none) :
    specCarry c g st sk d = valAt c g st sk d0 := by
  induction d with
  | zero =>
    have : d0 = 0 := by omega
    subst this
    exact specCarry_zero ..
  | succ d ih =>
    by_cases hd : d0 = d + 1
    · cases hv : valAt c g st sk d0 with
      | none => exact absurd hv hsome
      | some v => rw [specCarry_succ, ← hd, hv]
    · have hd0 : d0 ≤ d := by omega
      rw [specCarry_succ, hnone (d + 1) (by omega) (le_refl _)]
      exact ih hd0 (fun d' h1 h2 => hnone d' h1 (Nat.le_succ_of_le h2))

theorem valAt_ne_none_elim {c : Field} {g : List Grid} {st sk : Int} {d' : Nat}
    (h : valAt c g st sk d' ≠ none) :
    ∃ x ∈ g, x.date = d' ∧ x.store_id = st ∧ x.sku = sk ∧
      getF c x = valAt c g st sk d' ∧ (getF c x).isSome := by
  unfold valAt at h ⊢
  cases hfind : g.find? (fun x => decide (x.date = d' ∧ x.store_id = st ∧ x.sku = sk)) with
  | none => rw [hfind] at h; exact absurd rfl h
  | some x =>
    rw [hfind] at h
    have hp := List.find?_some hfind
    simp only [decide_eq_true_eq] at hp
    have hmem := List.mem_of_find?_eq_some hfind
    refine ⟨x, hmem, hp.1, hp.2.1, hp.2.2, rfl, ?_⟩
    cases hv : getF c x with
    | none =>
      have hb : (some x).bind (getF c) = getF c x := rfl
      rw [hb, hv] at h
      exact absurd rfl h
    | some v => simp

theorem valAt_of_mem {c : Field} {g : List Grid} {st sk : Int}
    (hg : GridUniq g) {x : Grid} (hx : x ∈ g)
    (hst : x.store_id = st) (hsk : x.sku = sk) :
    valAt c g st sk x.date = getF c x := by
  unfold valAt
  rw [countP_le_one_find?_eq (grid_countP_le_one hg x.date st sk) hx
    (by simp [hst, hsk])]
  rfl

theorem ffValue_eq_specCarry {g : List Grid} (hg : GridUniq g)
    (c : Field) (st sk : Int) (d : Nat) :
    ffValue c g st sk d = specCarry c g st sk d := by
  unfold ffValue
  cases hfil : g.filter (fun x => decide (x.store_id = st ∧ x.sku = sk ∧ x.date ≤ d ∧ (getF c x).isSome)) with
  | nil =>
    rw [List.foldl_nil]
    rw [specCarry_eq_none]
    · rfl
    · intro d' hd'
      by_contra hne
      obtain ⟨x, hxg, hxd, hxst, hxsk, hxv, hxs⟩ := valAt_ne_none_elim hne
      have hxmem : x ∈ g.filter (fun x => decide (x.store_id = st ∧ x.sku = sk ∧ x.date ≤ d ∧ (getF c x).isSome)) :=
        List.mem_filter.mpr ⟨hxg, by simp [hxst, hxsk, hxd, hd', hxs]⟩
      rw [hfil] at hxmem
      simp at hxmem
  | cons x0 l0 =>
    have hne : g.filter (fun x => decide (x.store_id = st ∧ x.sku = sk ∧ x.date ≤ d ∧ (getF c x).isSome)) ≠ [] := by
      rw [hfil]; simp
    obtain ⟨z, hz, hzmem, hub⟩ := foldl_pickLater_spec hne
    rw [← hfil, hz]
    have hzf := List.mem_filter.mp hzmem
    have hzg := hzf.1
    have hzp := hzf.2
    simp only [decide_eq_true_eq] at hzp
    obtain ⟨hzst, hzsk, hzd, hzs⟩ := hzp
    have hval : valAt c g st sk z.date = getF c z := valAt_of_mem hg hzg hzst hzsk
    rw [specCarry_eq_valAt z.date hzd
      (by rw [hval]; intro hnone; rw [hnone] at hzs; simp at hzs) ?later]
    · rw [hval]
      rfl
    case later =>
      intro d' h1 h2
      by_contra hne
      obtain ⟨w, hwg, hwd, hwst, hwsk, hwv, hws⟩ := valAt_ne_none_elim hne
      have hwmem : w ∈ g.filter (fun x => decide (x.store_id = st ∧ x.sku = sk ∧ x.date ≤ d ∧ (getF c x).isSome)) :=
        List.mem_filter.mpr ⟨hwg, by simp [hwst, hwsk, hwd, h2, hws]⟩
      have := hub w hwmem
      omega

/-! ### The cleansing step as a pointwise map -/

theorem setF_date (c : Field) (v : Option Int) (r : Grid) : (setF c v r).date = r.date := by
  cases c <;> rfl

theorem setF_store_id (c : Field) (v : Option Int) (r : Grid) :
    (setF c v r).store_id = r.store_id := by
  cases c <;> rfl

theorem setF_sku (c : Field) (v : Option Int) (r : Grid) : (setF c v r).sku = r.sku := by
  cases c <;> rfl

theorem setF_category (c : Field) (v : Option Int) (r : Grid) :
    (setF c v r).product_category = r.product_category := by
  cases c <;> rfl

theorem getF_setF_same (c : Field) (v : Option Int) (r : Grid) : getF c (setF c v r) = v := by
  cases c <;> rfl

theorem getF_setF_ne {c c' : Field} (h : c ≠ c') (v : Option Int) (r : Grid) :
    getF c (setF c' v r) = getF c r := by
  cases c <;> cases c' <;> first | rfl | exact absurd rfl h

theorem foldl_pickLater_map (h : Grid → Grid) (hd : ∀ r, (h r).date = r.date)
    (l : List Grid) :
    ∀ acc : Option Grid, (l.map h).foldl pickLater (acc.map h) = (l.foldl pickLater acc).map h := by
  induction l with
  | nil => intro acc; simp
  | cons x l ih =>
    intro acc
    rw [List.map_cons, List.foldl_cons, List.foldl_cons]
    have hstep : pickLater (acc.map h) (h x) = (pickLater acc x).map h := by
      cases acc with
      | none => rfl
      | some y =>
        simp only [Option.map_some', pickLater, hd]
        by_cases hc : y.date ≤ x.date
        · rw [if_pos hc, if_pos hc]; rfl
        · rw [if_neg hc, if_neg hc]; rfl
    rw [hstep, ih]

theorem ffValue_map {c : Field} (g : List Grid) (h : Grid → Grid)
    (hkeys : ∀ r, (h r).date = r.date ∧ (h r).store_id = r.store_id ∧
      (h r).sku = r.sku ∧ getF c (h r) = getF c r)
    (st sk : Int) (d : Nat) :
    ffValue c (g.map h) st sk d = ffValue c g st sk d := by
  unfold ffValue
  rw [List.filter_map]
  have hp : g.filter ((fun x => decide (x.store_id = st ∧ x.sku = sk ∧ x.date ≤ d ∧ (getF c x).isSome)) ∘ h) =
      g.filter (fun x => decide (x.store_id = st ∧ x.sku = sk ∧ x.date ≤ d ∧ (getF c x).isSome)) := by
    apply List.filter_congr
    intro x _
    simp only [Function.comp_apply, (hkeys x).1, (hkeys x).2.1, (hkeys x).2.2.1,
      (hkeys x).2.2.2]
  rw [hp]
  have hmap := foldl_pickLater_map h (fun r => (hkeys r).1)
    (g.filter (fun x => decide (x.store_id = st ∧ x.sku = sk ∧ x.date ≤ d ∧ (getF c x).isSome))) none
  rw [Option.map_none'] at hmap
  rw [hmap]
  cases hres : (g.filter (fun x => decide (x.store_id = st ∧ x.sku = sk ∧ x.date ≤ d ∧ (getF c x).isSome))).foldl pickLater none with
  | none => rfl
  | some z =>
    simp only [Option.map_some']
    show getF c (h z) = getF c z
    exact (hkeys z).2.2.2

theorem inventory_cleansed_eq_map (g : List Grid) :
    inventory_cleansed g = g.map (cleanRow g) := by
  have hk1 : ∀ r : Grid,
      (setF .shelf_capacity (ffValue .shelf_capacity g r.store_id r.sku r.date) r).date = r.date ∧
      (setF .shelf_capacity (ffValue .shelf_capacity g r.store_id r.sku r.date) r).store_id = r.store_id ∧
      (setF .shelf_capacity (ffValue .shelf_capacity g r.store_id r.sku r.date) r).sku = r.sku ∧
      getF .on_hand_inventory_units (setF .shelf_capacity (ffValue .shelf_capacity g r.store_id r.sku r.date) r) =
        getF .on_hand_inventory_units r := by
    intro r
    exact ⟨setF_date .., setF_store_id .., setF_sku .., getF_setF_ne (by decide) _ _⟩
  show (List.foldl (fun rs c => forwardFillCol c rs) g [.shelf_capacity, .on_hand_inventory_units]).map
      (zeroFillRow flow_fill_fields) = g.map (cleanRow g)
  rw [List.foldl_cons, List.foldl_cons, List.foldl_nil]
  show (forwardFillCol .on_hand_inventory_units (forwardFillCol .shelf_capacity g)).map
      (zeroFillRow flow_fill_fields) = g.map (cleanRow g)
  unfold forwardFillCol
  rw [List.map_map, List.map_map]
  apply List.map_congr_left
  intro r _
  simp only [Function.comp_apply]
  rw [ffValue_map g _ hk1]
  rw [setF_store_id, setF_sku, setF_date]
  rfl

theorem zeroFillRow_date (cs : List Field) (r : Grid) : (zeroFillRow cs r).date = r.date := by
  induction cs generalizing r with
  | nil => rfl
  | cons c cs ih =>
    show (zeroFillRow cs (setF c (some ((getF c r).getD 0)) r)).date = r.date
    rw [ih, setF_date]

theorem zeroFillRow_store_id (cs : List Field) (r : Grid) :
    (zeroFillRow cs r).store_id = r.store_id := by
  induction cs generalizing r with
  | nil => rfl
  | cons c cs ih =>
    show (zeroFillRow cs (setF c (some ((getF c r).getD 0)) r)).store_id = r.store_id
    rw [ih, setF_store_id]

theorem zeroFillRow_sku (cs : List Field) (r : Grid) : (zeroFillRow cs r).sku = r.sku := by
  induction cs generalizing r with
  | nil => rfl
  | cons c cs ih =>
    show (zeroFillRow cs (setF c (some ((getF c r).getD 0)) r)).sku = r.sku
    rw [ih, setF_sku]

theorem zeroFillRow_category (cs : List Field) (r : Grid) :
    (zeroFillRow cs r).product_category = r.product_category := by
  induction cs generalizing r with
  | nil => rfl
  | cons c cs ih =>
    show (zeroFillRow cs (setF c (some ((getF c r).getD 0)) r)).product_category = r.product_category
    rw [ih, setF_category]

theorem getF_zeroFillRow_flow (c : Field) (r : Grid) :
    getF c (zeroFillRow flow_fill_fields r) =
      if c ∈ flow_fill_fields then some ((getF c r).getD 0) else getF c r := by
  cases c <;> rfl

theorem cleanRow_date (g : List Grid) (r : Grid) : (cleanRow g r).date = r.date := by
  unfold cleanRow
  rw [zeroFillRow_date, setF_date, setF_date]

theorem cleanRow_store_id (g : List Grid) (r : Grid) :
    (cleanRow g r).store_id = r.store_id := by
  unfold cleanRow
  rw [zeroFillRow_store_id, setF_store_id, setF_store_id]

theorem cleanRow_sku (g : List Grid) (r : Grid) : (cleanRow g r).sku = r.sku := by
  unfold cleanRow
  rw [zeroFillRow_sku, setF_sku, setF_sku]

theorem cleanRow_category (g : List Grid) (r : Grid) :
    (cleanRow g r).product_category = r.product_category := by
  unfold cleanRow
  rw [zeroFillRow_category, setF_category, setF_category]

theorem cleanRow_on_hand (g : List Grid) (r : Grid) :
    getF .on_hand_inventory_units (cleanRow g r) =
      ffValue .on_hand_inventory_units g r.store_id r.sku r.date := by
  unfold cleanRow
  rw [getF_zeroFillRow_flow]
  rw [if_neg (by decide)]
  rw [getF_setF_same]

theorem cleanRow_shelf (g : List Grid) (r : Grid) :
    getF .shelf_capacity (cleanRow g r) =
      ffValue .shelf_capacity g r.store_id r.sku r.date := by
  unfold cleanRow
  rw [getF_zeroFillRow_flow]
  rw [if_neg (by decide)]
  rw [getF_setF_ne (by decide), getF_setF_same]

theorem cleanRow_flow (c : Field) (g : List Grid) (r : Grid) (hc : c ∈ flow_fill_fields) :
    getF c (cleanRow g r) = some ((getF c r).getD 0) := by
  unfold cleanRow
  rw [getF_zeroFillRow_flow, if_pos hc]
  have h1 : c ≠ Field.on_hand_inventory_units := by
    intro h; rw [h] at hc; simp [flow_fill_fields] at hc
  have h2 : c ≠ Field.shelf_capacity := by
    intro h; rw [h] at hc; simp [flow_fill_fields] at hc
  rw [getF_setF_ne h1, getF_setF_ne h2]

/-! ### Lemmas on the key universe and the category aggregation -/

theorem mem_distinctKeysAux {l : List Obs} :
    ∀ {seen : List (Int × Int)} {p : Int × Int},
      p ∈ distinctKeysAux seen l ↔ p ∉ seen ∧ ∃ o ∈ l, (o.store_id, o.sku) = p := by
  induction l with
  | nil => intro seen p; simp [distinctKeysAux]
  | cons o l ih =>
    intro seen p
    unfold distinctKeysAux
    by_cases hs : (o.store_id, o.sku) ∈ seen
    · rw [if_pos hs, ih]
      constructor
      · rintro ⟨hp, x, hx, rfl⟩
        exact ⟨hp, x, List.mem_cons_of_mem _ hx, rfl⟩
      · rintro ⟨hp, x, hx, rfl⟩
        rcases List.mem_cons.mp hx with rfl | hx
        · exact absurd hs hp
        · exact ⟨hp, x, hx, rfl⟩
    · rw [if_neg hs]
      constructor
      · intro hp
        rcases List.mem_cons.mp hp with rfl | hp
        · exact ⟨hs, o, List.mem_cons_self .., rfl⟩
        · obtain ⟨hnot, x, hx, rfl⟩ := ih.mp hp
          refine ⟨fun hmem => hnot (List.mem_cons_of_mem _ hmem), x,
            List.mem_cons_of_mem _ hx, rfl⟩
      · rintro ⟨hp, x, hx, rfl⟩
        rcases List.mem_cons.mp hx with rfl | hx
        · exact List.mem_cons_self ..
        · by_cases heq : (x.store_id, x.sku) = (o.store_id, o.sku)
          · rw [heq]; exact List.mem_cons_self ..
          · refine List.mem_cons_of_mem _ (ih.mpr ⟨?_, x, hx, rfl⟩)
            intro hmem
            rcases List.mem_cons.mp hmem with h | h
            · exact heq h
            · exact hp h

theorem mem_distinctKeys {obs : List Obs} {p : Int × Int} :
    p ∈ distinctKeys obs ↔ ∃ o ∈ obs, (o.store_id, o.sku) = p := by
  unfold distinctKeys
  rw [mem_distinctKeysAux]
  simp

theorem distinctKeysAux_nodup (l : List Obs) :
    ∀ seen : List (Int × Int), (distinctKeysAux seen l).Nodup := by
  induction l with
  | nil => intro seen; exact List.nodup_nil
  | cons o l ih =>
    intro seen
    unfold distinctKeysAux
    by_cases hs : (o.store_id, o.sku) ∈ seen
    · rw [if_pos hs]; exact ih seen
    · rw [if_neg hs]
      refine List.nodup_cons.mpr ⟨?_, ih _⟩
      intro hmem
      exact (mem_distinctKeysAux.mp hmem).1 (List.mem_cons_self ..)

theorem distinctKeys_nodup (obs : List Obs) : (distinctKeys obs).Nodup :=
  distinctKeysAux_nodup obs []

theorem store_skus_keys (obs : List Obs) :
    (store_skus obs).map (fun k => (k.store_id, k.sku)) = distinctKeys obs := by
  unfold store_skus
  rw [List.map_map]
  have : ((fun k : SKey => (k.store_id, k.sku)) ∘
      (fun p : Int × Int => (⟨p.1, p.2, (lastCat obs p.1 p.2).getD ""⟩ : SKey))) = id := by
    funext p
    rfl
  rw [this, List.map_id]

theorem store_skus_keys_nodup (obs : List Obs) :
    ((store_skus obs).map (fun k => (k.store_id, k.sku))).Nodup := by
  rw [store_skus_keys]
  exact distinctKeys_nodup obs

/-- The foldl underlying lastCat restarted from any accumulator. -/
theorem lastCat_step (obs : List Obs) (st sk : Int) (acc : Option String) :
    obs.foldl
        (fun acc o => if o.store_id = st ∧ o.sku = sk then some o.product_category else acc)
        acc =
      match lastCat obs st sk with
      | some c => some c
      | none => acc := by
  induction obs generalizing acc with
  | nil => rfl
  | cons o l ih =>
    rw [List.foldl_cons]
    rw [ih]
    have hlast : lastCat (o :: l) st sk =
        match lastCat l st sk with
        | some c => some c
        | none => if o.store_id = st ∧ o.sku = sk then some o.product_category else none := by
      unfold lastCat
      rw [List.foldl_cons, ih]
      rfl
    rw [hlast]
    cases lastCat l st sk with
    | some c => rfl
    | none =>
      by_cases hc : (o.store_id = st ∧ o.sku = sk)
      · rw [if_pos hc, if_pos hc]
      · rw [if_neg hc, if_neg hc]

theorem lastCat_append (l₁ l₂ : List Obs) (st sk : Int) :
    lastCat (l₁ ++ l₂) st sk =
      match lastCat l₂ st sk with
      | some c => some c
      | none => lastCat l₁ st sk := by
  unfold lastCat
  rw [List.foldl_append]
  exact lastCat_step l₂ st sk _

theorem lastCat_cons (o : Obs) (l : List Obs) (st sk : Int) :
    lastCat (o :: l) st sk =
      match lastCat l st sk with
      | some c => some c
      | none => if o.store_id = st ∧ o.sku = sk then some o.product_category else none := by
  unfold lastCat
  rw [List.foldl_cons, lastCat_step]
  rfl

theorem lastCat_eq_none_iff {obs : List Obs} {st sk : Int} :
    lastCat obs st sk = none ↔ ∀ o ∈ obs, ¬(o.store_id = st ∧ o.sku = sk) := by
  induction obs with
  | nil => simp [lastCat]
  | cons o l ih =>
    rw [lastCat_cons]
    cases hl : lastCat l st sk with
    | some c =>
      show some c = none ↔ _
      constructor
      · intro h; exact absurd h (by simp)
      · intro h
        have h0 := ih.mpr (fun x hx => h x (List.mem_cons_of_mem _ hx))
        exact absurd (h0.symm.trans hl) (by simp)
    | none =>
      show (if o.store_id = st ∧ o.sku = sk then some o.product_category else none) = none ↔ _
      by_cases hc : (o.store_id = st ∧ o.sku = sk)
      · rw [if_pos hc]
        constructor
        · intro h; exact absurd h (by simp)
        · intro h; exact absurd hc (h o (List.mem_cons_self ..))
      · rw [if_neg hc]
        constructor
        · intro _ x hx
          rcases List.mem_cons.mp hx with rfl | hx
          · exact hc
          · exact ih.mp hl x hx
        · intro _; rfl

theorem lastCat_eq_some {obs : List Obs} {st sk : Int}
    (h : ∃ o ∈ obs, o.store_id = st ∧ o.sku = sk) :
    ∃ c, lastCat obs st sk = some c := by
  cases hl : lastCat obs st sk with
  | none =>
    obtain ⟨o, ho, hk⟩ := h
    exact absurd hk (lastCat_eq_none_iff.mp hl o ho)
  | some c => exact ⟨c, rfl⟩

theorem dates_eq_some {obs : List Obs} {ds : List Nat} (h : dates obs = some ds) :
    ∃ s e, minDate obs = some s ∧ maxDate obs = some e ∧ s ≤ e ∧ ds = datesFor s e := by
  unfold dates at h
  cases hs : minDate obs with
  | none => rw [hs] at h; simp at h
  | some s =>
    cases he : maxDate obs with
    | none => rw [hs, he] at h; simp at h
    | some e =>
      rw [hs, he] at h
      exact ⟨s, e, rfl, rfl, minDate_le_maxDate hs he, (Option.some.inj h).symm⟩

/-! ### Counting rows of the grid -/

theorem countP_flatMap {α β : Type} (p : β → Bool) (l : List α) (f : α → List β) :
    (l.flatMap f).countP p = (l.map (fun a => (f a).countP p)).sum := by
  induction l with
  | nil => rfl
  | cons a l ih =>
    rw [List.flatMap_cons, List.countP_append, ih, List.map_cons, List.sum_cons]

theorem countP_keymatch_block {obs : List Obs} {ks : List SKey}
    (hks : (ks.map (fun k => (k.store_id, k.sku))).Nodup)
    {k : SKey} (hk : k ∈ ks) (d : Nat) :
    (ks.map (cellRow obs d)).countP
      (fun r => r.date = d ∧ r.store_id = k.store_id ∧ r.sku = k.sku) = 1 := by
  rw [List.countP_map]
  induction ks with
  | nil => simp at hk
  | cons k' ks ih =>
    rw [List.map_cons, List.nodup_cons] at hks
    by_cases heq : (k'.store_id, k'.sku) = (k.store_id, k.sku)
    · have hp : ((fun r => decide (r.date = d ∧ r.store_id = k.store_id ∧ r.sku = k.sku)) ∘
          cellRow obs d) k' = true := by
        simp [Function.comp_apply, cellRow_date, cellRow_store_id, cellRow_sku,
          (Prod.mk.injEq .. ▸ heq : _ ∧ _).1, (Prod.mk.injEq .. ▸ heq : _ ∧ _).2]
      rw [List.countP_cons_of_pos _ _ hp]
      have h0 : ks.countP ((fun r => decide (r.date = d ∧ r.store_id = k.store_id ∧ r.sku = k.sku)) ∘
          cellRow obs d) = 0 := by
        rw [List.countP_eq_zero]
        intro x hx hpx
        simp only [Function.comp_apply, cellRow_date, cellRow_store_id, cellRow_sku,
          decide_eq_true_eq] at hpx
        apply hks.1
        rw [List.mem_map]
        exact ⟨x, hx, by rw [hpx.2.1, hpx.2.2]; rw [Prod.mk.injEq] at heq ⊢; exact ⟨heq.1.symm ▸ rfl, heq.2.symm ▸ rfl⟩⟩
      rw [h0]
    · have hp : ¬(((fun r => decide (r.date = d ∧ r.store_id = k.store_id ∧ r.sku = k.sku)) ∘
          cellRow obs d) k' = true) := by
        simp only [Function.comp_apply, cellRow_date, cellRow_store_id, cellRow_sku,
          decide_eq_true_eq]
        intro hcon
        exact heq (by rw [Prod.mk.injEq]; exact ⟨hcon.2.1, hcon.2.2⟩)
      rw [List.countP_cons_of_neg _ _ hp]
      rcases List.mem_cons.mp hk with rfl | hk'
      · exact absurd rfl heq
      · exact ih hks.2 hk'

theorem countP_keymatch_offblock {obs : List Obs} {ks : List SKey} {d d' : Nat}
    (hne : d' ≠ d) (st sk : Int) :
    (ks.map (cellRow obs d')).countP
      (fun r => r.date = d ∧ r.store_id = st ∧ r.sku = sk) = 0 := by
  rw [List.countP_eq_zero]
  intro x hx hpx
  obtain ⟨k', _, rfl⟩ := List.mem_map.mp hx
  simp only [cellRow_date, decide_eq_true_eq] at hpx
  exact hne hpx.1

theorem countP_key_grid {obs : List Obs} {ds : List Nat} {ks : List SKey}
    (hds : ds.Nodup) (hks : (ks.map (fun k => (k.store_id, k.sku))).Nodup)
    {d : Nat} (hd : d ∈ ds) {k : SKey} (hk : k ∈ ks) :
    (ds.flatMap (fun d' => ks.map (cellRow obs d'))).countP
      (fun r => r.date = d ∧ r.store_id = k.store_id ∧ r.sku = k.sku) = 1 := by
  rw [countP_flatMap]
  induction ds with
  | nil => simp at hd
  | cons d0 ds ih =>
    rw [List.nodup_cons] at hds
    rw [List.map_cons, List.sum_cons]
    rcases List.mem_cons.mp hd with rfl | hd'
    · rw [countP_keymatch_block hks hk]
      have h0 : (ds.map (fun d' => (ks.map (cellRow obs d')).countP
          (fun r => r.date = d ∧ r.store_id = k.store_id ∧ r.sku = k.sku))).sum = 0 := by
        apply List.sum_eq_zero
        intro x hx
        obtain ⟨d', hd', rfl⟩ := List.mem_map.mp hx
        have hne : d' ≠ d := by
          intro hcon
          exact hds.1 (by rw [← hcon]; exact hd')
        exact countP_keymatch_offblock hne ..
      rw [h0]
    · have hne : d0 ≠ d := by
        intro hcon
        exact hds.1 (by rw [hcon]; exact hd')
      rw [countP_keymatch_offblock hne ..]
      rw [ih hds.2 hd']

theorem flagRow_promotion (r : Grid) :
    (flagRow r).promotion_flag =
      match r.units_under_promotion with
      | some v => if 0 < v then (1 : Int) else 0
      | none => 0 := rfl

theorem flagRow_replenishment (r : Grid) :
    (flagRow r).replenishment_flag =
      match r.replenishment_units with
      | some v => if 0 < v then (1 : Int) else 0
      | none => 0 := rfl

theorem flagRow_toGrid (r : Grid) : (flagRow r).toGrid = r := rfl

theorem flagRow_date (r : Grid) : (flagRow r).date = r.date := rfl

theorem flagRow_store_id (r : Grid) : (flagRow r).store_id = r.store_id := rfl

theorem flagRow_sku (r : Grid) : (flagRow r).sku = r.sku := rfl

theorem flagRow_category (r : Grid) : (flagRow r).product_category = r.product_category := rfl

/-! ### Concrete example inputs used by counterexamples and witnesses -/

/-! ### Claim theorems -/

/-- C8: on an empty observation set the pipeline fails (the source
faults when subtracting the null aggregate dates — the failure the
specification names EmptyInputError) and produces no output at all:
both the date range and the whole pipeline yield none. -/
theorem C8_empty_input :
    dates ([] : List Obs) = none ∧ pipeline ([] : List Obs) = none :=
  ⟨rfl, rfl⟩

/-- C9, counterexample: the imputation step performs no validation of
the field classification.  Run with a misconfigured classification in
which on_hand_inventory_units appears in neither group, it does not
fail with any error: it returns an ordinary output row in which the
unclassified field is simply left null. -/
theorem C9_counterexample :
    (applyImputation [Field.shelf_capacity] flow_fill_fields [exGridNull]).map
        (fun r => r.on_hand_inventory_units) = [none] ∧
    (applyImputation [Field.shelf_capacity] flow_fill_fields [exGridNull]).length = 1 := by
  decide

/-- C9, amended: the field classification of the imputation step is
hardcoded and is in fact a valid partition — every measure field
belongs to exactly one of the two groups — and the pipeline's
imputation is exactly this classification applied; no validation or
failure path exists (the imputation is a total function). -/
theorem C9_field_classification :
    (∀ c : Field,
        (c ∈ state_fill_fields ∧ c ∉ flow_fill_fields) ∨
        (c ∉ state_fill_fields ∧ c ∈ flow_fill_fields)) ∧
    inventory_cleansed = applyImputation state_fill_fields flow_fill_fields :=
  ⟨by decide, rfl⟩

/-- C2, counterexample: with two observations sharing the same
(date, store_id, sku) key, the date range has one day and the key
universe one key, yet the output has two rows, not one times one: the
left-outer join duplicates the grid cell once per matching
observation. -/
theorem C2_counterexample :
    (dates [exSingle, exDup]).map List.length = some 1 ∧
    (store_skus [exSingle, exDup]).length = 1 ∧
    (pipeline [exSingle, exDup]).map List.length = some 2 ∧
    (2 : Nat) ≠ 1 * 1 := by
  decide

/-- C4, counterexample: with a single observation the grid expansion
output has exactly as many rows as the input, so the output is not a
strict superset of the input by row count. -/
theorem C4_counterexample :
    dates [exSingle] = some [0] ∧
    (inventory_with_gaps [0] (store_skus [exSingle]) [exSingle]).length =
      [exSingle].length ∧
    ¬([exSingle].length < (inventory_with_gaps [0] (store_skus [exSingle]) [exSingle]).length) := by
  decide

/-- C7, counterexample: the category attached to a key is that of the
last observation in input order, not of the chronologically last
observation.  Here the observation at day 1 carries category A and the
observation at day 0, listed later, carries category B: the key
universe records B, and every output row carries B, while the
chronologically last category is A. -/
theorem C7_counterexample :
    store_skus [exLate, exEarly] = [⟨1, 1, "B"⟩] ∧
    chronLastCat [exLate, exEarly] 1 1 = some "A" ∧
    (pipeline [exLate, exEarly]).map (fun out => out.map (fun r => r.product_category)) =
      some ["B", "B"] ∧
    ("B" : String) ≠ "A" := by
  decide

/-- C1: on any grid whose rows have pairwise distinct
(date, store_id, sku) keys, the cleansing step gives each row's two
STATE columns (on_hand_inventory_units, shelf_capacity) exactly the
specification's carry-forward value: the most recent non-null value of
that column at an earlier or equal date within the partition of the
same (store_id, sku) key (specCarry consults only rows of that key, so
carry-forward never crosses keys), and none — still null — when the
partition holds no non-null value at or before that date. -/
theorem C1_state_carry_forward {g : List Grid} (hg : GridUniq g) :
    (inventory_cleansed g).length = g.length ∧
    ∀ i (hi : i < g.length) (hc : i < (inventory_cleansed g).length),
      getF .on_hand_inventory_units ((inventory_cleansed g).get ⟨i, hc⟩) =
        specCarry .on_hand_inventory_units g (g.get ⟨i, hi⟩).store_id
          (g.get ⟨i, hi⟩).sku (g.get ⟨i, hi⟩).date ∧
      getF .shelf_capacity ((inventory_cleansed g).get ⟨i, hc⟩) =
        specCarry .shelf_capacity g (g.get ⟨i, hi⟩).store_id
          (g.get ⟨i, hi⟩).sku (g.get ⟨i, hi⟩).date := by
  have hlen : (inventory_cleansed g).length = g.length := by
    rw [inventory_cleansed_eq_map, List.length_map]
  refine ⟨hlen, ?_⟩
  intro i hi hc
  simp only [List.get_eq_getElem, inventory_cleansed_eq_map, List.getElem_map,
    cleanRow_on_hand, cleanRow_shelf]
  exact ⟨ffValue_eq_specCarry hg .., ffValue_eq_specCarry hg ..⟩

/-- C1 witness: on the concrete two-row grid, day 1 carries the day-0
on_hand value 5 forward, and shelf_capacity — never observed — stays
null. -/
theorem C1_witness :
    getF .on_hand_inventory_units ((inventory_cleansed exGrid2).get ⟨1, by decide⟩) =
      specCarry .on_hand_inventory_units exGrid2 (exGrid2.get ⟨1, by decide⟩).store_id
        (exGrid2.get ⟨1, by decide⟩).sku (exGrid2.get ⟨1, by decide⟩).date ∧
    getF .shelf_capacity ((inventory_cleansed exGrid2).get ⟨1, by decide⟩) =
      specCarry .shelf_capacity exGrid2 (exGrid2.get ⟨1, by decide⟩).store_id
        (exGrid2.get ⟨1, by decide⟩).sku (exGrid2.get ⟨1, by decide⟩).date :=
  (C1_state_carry_forward (by decide)).2 1 (by decide) (by decide)

/-- C5: for a non-empty observation set, the generated date sequence is
defined; its start s and end e are the minimum and maximum observed
dates (attained, and bounding every observation); its length is
(e - s) + 1; its i-th entry is s + i, so it is strictly ascending and
contiguous with no gaps; and it holds each day between s and e exactly
once (strict ascent gives nodup). -/
theorem C5_date_range {obs : List Obs} (hne : obs ≠ []) :
    ∃ s e ds, minDate obs = some s ∧ maxDate obs = some e ∧ dates obs = some ds ∧
      (∃ o ∈ obs, o.date = s) ∧ (∃ o ∈ obs, o.date = e) ∧
      (∀ o ∈ obs, s ≤ o.date ∧ o.date ≤ e) ∧
      ds.length = e - s + 1 ∧
      (∀ i (h : i < ds.length), ds.get ⟨i, h⟩ = s + i) ∧
      ds.Pairwise (· < ·) ∧
      (∀ d, d ∈ ds ↔ s ≤ d ∧ d ≤ e) := by
  cases hs : minDate obs with
  | none => exact absurd (minDate_eq_none_iff.mp hs) hne
  | some s =>
    cases he : maxDate obs with
    | none => exact absurd (maxDate_eq_none_iff.mp he) hne
    | some e =>
      have hse : s ≤ e := minDate_le_maxDate hs he
      refine ⟨s, e, datesFor s e, rfl, rfl, ?_, minDate_mem hs, maxDate_mem he,
        fun o ho => ⟨minDate_le hs o ho, maxDate_ge he o ho⟩,
        datesFor_length s e, datesFor_get s e, datesFor_pairwise s e,
        fun d => mem_datesFor hse⟩
      unfold dates
      rw [hs, he]

/-- C5 witness: the theorem applied to the one-observation input at
day 0. -/
theorem C5_witness :
    ∃ s e ds, minDate [exSingle] = some s ∧ maxDate [exSingle] = some e ∧
      dates [exSingle] = some ds ∧
      (∃ o ∈ [exSingle], o.date = s) ∧ (∃ o ∈ [exSingle], o.date = e) ∧
      (∀ o ∈ [exSingle], s ≤ o.date ∧ o.date ≤ e) ∧
      ds.length = e - s + 1 ∧
      (∀ i (h : i < ds.length), ds.get ⟨i, h⟩ = s + i) ∧
      ds.Pairwise (· < ·) ∧
      (∀ d, d ∈ ds ↔ s ≤ d ∧ d ≤ e) :=
  C5_date_range (by decide)

/-- C3: every row of the pipeline output carries, in each of the seven
FLOW columns, exactly the value of the same position of the pre-imputation
grid with null replaced by 0 — so every FLOW column is non-null in every
output row, the replacement is unconditional and depends only on the
row itself, independent of key partition or date ordering. -/
theorem C3_flow_zero_fill {obs : List Obs} {ds : List Nat} {out : List Final}
    (hds : dates obs = some ds) (hout : pipeline obs = some out) :
    out.length = (inventory_with_gaps ds (store_skus obs) obs).length ∧
    ∀ i (ho : i < out.length)
      (hgi : i < (inventory_with_gaps ds (store_skus obs) obs).length),
      ∀ c ∈ flow_fill_fields,
        getF c (out.get ⟨i, ho⟩).toGrid =
          some ((getF c ((inventory_with_gaps ds (store_skus obs) obs).get ⟨i, hgi⟩)).getD 0) := by
  have hF : out =
      inventory_final (inventory_cleansed (inventory_with_gaps ds (store_skus obs) obs)) := by
    unfold pipeline at hout
    rw [hds] at hout
    exact (Option.some.inj hout).symm
  subst hF
  have hflag : ∀ r : Grid, (flagRow r).toGrid = r := fun r => rfl
  constructor
  · unfold inventory_final
    rw [inventory_cleansed_eq_map, List.length_map, List.length_map]
  · intro i ho hgi c hc
    unfold inventory_final
    simp only [List.get_eq_getElem, inventory_cleansed_eq_map, List.getElem_map, hflag]
    rw [cleanRow_flow c _ _ hc]

/-- C3 witness: the single-observation pipeline in which the
replenishment_units column is null in the grid and 0 in the output. -/
theorem C3_witness :
    getF .replenishment_units
        ((inventory_final (inventory_cleansed (inventory_with_gaps [0] (store_skus [exSingle]) [exSingle]))).get
          ⟨0, by decide⟩).toGrid =
      some ((getF .replenishment_units
        ((inventory_with_gaps [0] (store_skus [exSingle]) [exSingle]).get ⟨0, by decide⟩)).getD 0) :=
  (C3_flow_zero_fill (rfl : dates [exSingle] = some [0])
      (rfl : pipeline [exSingle] =
        some (inventory_final (inventory_cleansed (inventory_with_gaps [0] (store_skus [exSingle]) [exSingle]))))).2
    0 (by decide) (by decide) .replenishment_units (by decide)

/-- C6: in every pipeline output row the two event measures are
non-null, the flags take only the values 1 (true) and 0 (false),
promotion_flag is 1 exactly when units_under_promotion is positive and
replenishment_flag is 1 exactly when replenishment_units is positive;
moreover the flag step is by definition a per-row map, so it is pure,
total and row-local. -/
theorem C6_event_flags {obs : List Obs} {out : List Final}
    (hout : pipeline obs = some out) :
    (∀ r ∈ out,
      (r.units_under_promotion).isSome ∧ (r.replenishment_units).isSome ∧
      (r.promotion_flag = 1 ∨ r.promotion_flag = 0) ∧
      (r.promotion_flag = 1 ↔ 0 < (r.units_under_promotion).getD 0) ∧
      (r.replenishment_flag = 1 ∨ r.replenishment_flag = 0) ∧
      (r.replenishment_flag = 1 ↔ 0 < (r.replenishment_units).getD 0)) ∧
    inventory_final = fun rows : List Grid => rows.map flagRow := by
  refine ⟨?_, rfl⟩
  intro r hr
  cases hds : dates obs with
  | none => unfold pipeline at hout; rw [hds] at hout; exact absurd hout (by simp)
  | some ds =>
    have hF : out =
        inventory_final (inventory_cleansed (inventory_with_gaps ds (store_skus obs) obs)) := by
      unfold pipeline at hout
      rw [hds] at hout
      exact (Option.some.inj hout).symm
    subst hF
    unfold inventory_final at hr
    rw [inventory_cleansed_eq_map] at hr
    obtain ⟨x, hx, rfl⟩ := List.mem_map.mp hr
    obtain ⟨y, hy, rfl⟩ := List.mem_map.mp hx
    have hu : (cleanRow (inventory_with_gaps ds (store_skus obs) obs) y).units_under_promotion =
        some ((getF .units_under_promotion y).getD 0) :=
      cleanRow_flow .units_under_promotion (inventory_with_gaps ds (store_skus obs) obs) y (by decide)
    have hrep : (cleanRow (inventory_with_gaps ds (store_skus obs) obs) y).replenishment_units =
        some ((getF .replenishment_units y).getD 0) :=
      cleanRow_flow .replenishment_units (inventory_with_gaps ds (store_skus obs) obs) y (by decide)
    refine ⟨?_, ?_, ?_, ?_, ?_, ?_⟩
    · show ((cleanRow (inventory_with_gaps ds (store_skus obs) obs) y).units_under_promotion).isSome = true
      rw [hu]; rfl
    · show ((cleanRow (inventory_with_gaps ds (store_skus obs) obs) y).replenishment_units).isSome = true
      rw [hrep]; rfl
    · rw [flagRow_promotion, hu]
      by_cases hv : 0 < (getF .units_under_promotion y).getD 0
      · left; simp [hv]
      · right; simp [hv]
    · rw [flagRow_promotion]
      rw [show (flagRow (cleanRow (inventory_with_gaps ds (store_skus obs) obs) y)).units_under_promotion =
        (cleanRow (inventory_with_gaps ds (store_skus obs) obs) y).units_under_promotion from rfl]
      rw [hu]
      by_cases hv : 0 < (getF .units_under_promotion y).getD 0
      · simp [hv]
      · simp [hv]
    · rw [flagRow_replenishment, hrep]
      by_cases hv : 0 < (getF .replenishment_units y).getD 0
      · left; simp [hv]
      · right; simp [hv]
    · rw [flagRow_replenishment]
      rw [show (flagRow (cleanRow (inventory_with_gaps ds (store_skus obs) obs) y)).replenishment_units =
        (cleanRow (inventory_with_gaps ds (store_skus obs) obs) y).replenishment_units from rfl]
      rw [hrep]
      by_cases hv : 0 < (getF .replenishment_units y).getD 0
      · simp [hv]
      · simp [hv]

/-- C6 witness: in the single-observation pipeline output the promotion
flag is 1 exactly when the imputed units_under_promotion (here 2) is
positive. -/
theorem C6_witness :
    ((inventory_final (inventory_cleansed (inventory_with_gaps [0] (store_skus [exSingle]) [exSingle]))).get
        ⟨0, by decide⟩).promotion_flag = 1 ↔
      0 < (((inventory_final (inventory_cleansed (inventory_with_gaps [0] (store_skus [exSingle]) [exSingle]))).get
        ⟨0, by decide⟩).units_under_promotion).getD 0 :=
  ((C6_event_flags (rfl : pipeline [exSingle] =
      some (inventory_final (inventory_cleansed (inventory_with_gaps [0] (store_skus [exSingle]) [exSingle]))))).1
    _ (by decide)).2.2.2.1

/-- C2, amended: for a non-empty observation set in which no two
observations share a (date, store_id, sku) key, the pipeline output has
exactly |DateRange| times |KeyUniverse| rows and contains exactly one
row for every (date, key) pair of DateRange times KeyUniverse. -/
theorem C2_grid_row_count {obs : List Obs} {ds : List Nat} {out : List Final}
    (hu : UniqueKeys obs) (hds : dates obs = some ds) (hout : pipeline obs = some out) :
    out.length = ds.length * (store_skus obs).length ∧
    ∀ d ∈ ds, ∀ k ∈ store_skus obs,
      out.countP (fun r => r.date = d ∧ r.store_id = k.store_id ∧ r.sku = k.sku) = 1 := by
  have hF : out =
      inventory_final (inventory_cleansed (inventory_with_gaps ds (store_skus obs) obs)) := by
    unfold pipeline at hout
    rw [hds] at hout
    exact (Option.some.inj hout).symm
  subst hF
  rw [grid_eq hu]
  obtain ⟨s, e, hs, he, hse, rfl⟩ := dates_eq_some hds
  have hdsnodup := datesFor_nodup s e
  have hksnodup := store_skus_keys_nodup obs
  constructor
  · unfold inventory_final
    rw [inventory_cleansed_eq_map, List.length_map, List.length_map,
      length_flatMap_map]
  · intro d hd k hk
    unfold inventory_final
    rw [inventory_cleansed_eq_map, List.countP_map, List.countP_map]
    rw [List.countP_congr (q := fun r : Grid => decide (r.date = d ∧ r.store_id = k.store_id ∧ r.sku = k.sku)) ?hiff]
    case hiff =>
      intro x _
      show (decide _ = true) ↔ (decide _ = true)
      simp only [decide_eq_true_eq, Function.comp_apply, flagRow_date, flagRow_store_id,
        flagRow_sku, cleanRow_date, cleanRow_store_id, cleanRow_sku]
    exact countP_key_grid hdsnodup hksnodup hd hk

/-- C2 witness: the amended theorem at the one-observation input: the
unique (day 0, store 1, sku 1) cell appears exactly once. -/
theorem C2_witness :
    (inventory_final (inventory_cleansed (inventory_with_gaps [0] (store_skus [exSingle]) [exSingle]))).countP
      (fun r => r.date = 0 ∧ r.store_id = (⟨1, 1, "a"⟩ : SKey).store_id ∧
        r.sku = (⟨1, 1, "a"⟩ : SKey).sku) = 1 :=
  (C2_grid_row_count (by decide) (rfl : dates [exSingle] = some [0])
      (rfl : pipeline [exSingle] =
        some (inventory_final (inventory_cleansed (inventory_with_gaps [0] (store_skus [exSingle]) [exSingle]))))).2
    0 (by decide) ⟨1, 1, "a"⟩ (by decide)

theorem joinCell_mem {obs : List Obs} {d : Nat} {k : SKey} {x : Grid}
    (hx : x ∈ joinCell obs d k) :
    x.date = d ∧ x.store_id = k.store_id ∧ x.sku = k.sku ∧
      x.product_category = k.product_category := by
  unfold joinCell at hx
  split at hx
  · rcases List.mem_singleton.mp hx with rfl
    exact ⟨rfl, rfl, rfl, rfl⟩
  · rename_i ms heq
    obtain ⟨o, ho, rfl⟩ := List.mem_map.mp hx
    have hp := (List.mem_filter.mp ho).2
    simp only [decide_eq_true_eq] at hp
    exact ⟨hp.1, hp.2.1, hp.2.2, rfl⟩

/-- C7, amended: the category attached to each key of the key universe
is the product_category of the last observation for that key in input
order (what f.last computes in the sequential semantics; the code does
not sort by date, so this need not be the chronologically last
observation), and every pipeline output row for that key — gap days
included — carries exactly this key-level category, so category is
fully populated in the output. -/
theorem C7_category_attachment {obs : List Obs} {out : List Final}
    (hout : pipeline obs = some out) :
    (∀ k ∈ store_skus obs, lastCat obs k.store_id k.sku = some k.product_category) ∧
    ∀ r ∈ out, lastCat obs r.store_id r.sku = some r.product_category := by
  have hkey : ∀ k ∈ store_skus obs, lastCat obs k.store_id k.sku = some k.product_category := by
    intro k hk
    obtain ⟨p, hp, rfl⟩ := List.mem_map.mp hk
    obtain ⟨o, ho, hop⟩ := mem_distinctKeys.mp hp
    obtain ⟨c, hc⟩ := lastCat_eq_some ⟨o, ho, congrArg Prod.fst hop, congrArg Prod.snd hop⟩
    show lastCat obs p.1 p.2 = some ((lastCat obs p.1 p.2).getD "")
    rw [hc]
    rfl
  refine ⟨hkey, ?_⟩
  intro r hr
  cases hds : dates obs with
  | none => unfold pipeline at hout; rw [hds] at hout; exact absurd hout (by simp)
  | some ds =>
    have hF : out =
        inventory_final (inventory_cleansed (inventory_with_gaps ds (store_skus obs) obs)) := by
      unfold pipeline at hout
      rw [hds] at hout
      exact (Option.some.inj hout).symm
    subst hF
    unfold inventory_final at hr
    rw [inventory_cleansed_eq_map] at hr
    obtain ⟨x, hx, rfl⟩ := List.mem_map.mp hr
    obtain ⟨y, hy, rfl⟩ := List.mem_map.mp hx
    unfold inventory_with_gaps at hy
    obtain ⟨d, _, hy2⟩ := List.mem_flatMap.mp hy
    obtain ⟨k, hk, hy3⟩ := List.mem_flatMap.mp hy2
    obtain ⟨hyd, hyst, hysk, hycat⟩ := joinCell_mem hy3
    rw [flagRow_store_id, flagRow_sku, flagRow_category,
      cleanRow_store_id, cleanRow_sku, cleanRow_category, hyst, hysk, hycat]
    exact hkey k hk

/-- C7 amended witness: in the one-observation pipeline the single
output row carries the category of the last (only) observation of its
key. -/
theorem C7_witness :
    lastCat [exSingle]
        ((inventory_final (inventory_cleansed (inventory_with_gaps [0] (store_skus [exSingle]) [exSingle]))).get
          ⟨0, by decide⟩).store_id
        ((inventory_final (inventory_cleansed (inventory_with_gaps [0] (store_skus [exSingle]) [exSingle]))).get
          ⟨0, by decide⟩).sku =
      some ((inventory_final (inventory_cleansed (inventory_with_gaps [0] (store_skus [exSingle]) [exSingle]))).get
          ⟨0, by decide⟩).product_category :=
  (C7_category_attachment (rfl : pipeline [exSingle] =
      some (inventory_final (inventory_cleansed (inventory_with_gaps [0] (store_skus [exSingle]) [exSingle]))))).2
    _ (List.get_mem ..)

/-- C4, amended: the grid expansion output is a superset of the input
by row count — equality is possible (a fully dense input adds no rows,
so the superset need not be strict) — and, when no two observations
share a (date, store_id, sku) key, every observation's nine measures
appear unchanged in exactly one output row of the grid expansion, the
row matching its (date, store_id, sku); no observation is duplicated or
dropped. -/
theorem C4_observation_preservation {obs : List Obs} {ds : List Nat}
    (hu : UniqueKeys obs) (hds : dates obs = some ds) :
    obs.length ≤ (inventory_with_gaps ds (store_skus obs) obs).length ∧
    ∀ o ∈ obs,
      (inventory_with_gaps ds (store_skus obs) obs).countP
        (fun r => r.date = o.date ∧ r.store_id = o.store_id ∧ r.sku = o.sku ∧
          r.total_sales_units = o.total_sales_units ∧
          r.on_hand_inventory_units = o.on_hand_inventory_units ∧
          r.replenishment_units = o.replenishment_units ∧
          r.inventory_pipeline = o.inventory_pipeline ∧
          r.units_in_transit = o.units_in_transit ∧
          r.units_in_dc = o.units_in_dc ∧
          r.units_on_order = o.units_on_order ∧
          r.units_under_promotion = o.units_under_promotion ∧
          r.shelf_capacity = o.shelf_capacity) = 1 := by
  rw [grid_eq hu]
  obtain ⟨s, e, hs, he, hse, rfl⟩ := dates_eq_some hds
  have hdsnodup := datesFor_nodup s e
  have hksnodup := store_skus_keys_nodup obs
  have hdmem : ∀ o ∈ obs, o.date ∈ datesFor s e := fun o ho =>
    (mem_datesFor hse).mpr ⟨minDate_le hs o ho, maxDate_ge he o ho⟩
  have hkmem : ∀ o ∈ obs, ∃ k ∈ store_skus obs, k.store_id = o.store_id ∧ k.sku = o.sku := by
    intro o ho
    have hp : (o.store_id, o.sku) ∈ distinctKeys obs := mem_distinctKeys.mpr ⟨o, ho, rfl⟩
    rw [← store_skus_keys obs] at hp
    obtain ⟨k, hk, hkeq⟩ := List.mem_map.mp hp
    exact ⟨k, hk, congrArg Prod.fst hkeq, congrArg Prod.snd hkeq⟩
  constructor
  · have hnodup : (obs.map (fun o => (o.date, o.store_id, o.sku))).Nodup := by
      refine List.Pairwise.map _ ?_ hu
      intro a b hab hcon
      apply hab
      rw [Prod.mk.injEq, Prod.mk.injEq] at hcon
      exact ⟨hcon.1, hcon.2.1, hcon.2.2⟩
    have hsubset : (obs.map (fun o => (o.date, o.store_id, o.sku))) ⊆
        ((datesFor s e).flatMap (fun d => (store_skus obs).map (cellRow obs d))).map
          (fun r => (r.date, r.store_id, r.sku)) := by
      intro t ht
      obtain ⟨o, ho, rfl⟩ := List.mem_map.mp ht
      obtain ⟨k, hk, hkst, hksk⟩ := hkmem o ho
      refine List.mem_map.mpr ⟨cellRow obs o.date k,
        List.mem_flatMap.mpr ⟨o.date, hdmem o ho, List.mem_map.mpr ⟨k, hk, rfl⟩⟩, ?_⟩
      rw [cellRow_date, cellRow_store_id, cellRow_sku, hkst, hksk]
    have h1 := (List.subperm_of_subset hnodup hsubset).length_le
    rw [List.length_map, List.length_map] at h1
    exact h1
  · intro o ho
    obtain ⟨k, hk, hkst, hksk⟩ := hkmem o ho
    have hfind : obs.find?
        (fun x => decide (x.date = o.date ∧ x.store_id = k.store_id ∧ x.sku = k.sku)) = some o :=
      countP_le_one_find?_eq (obs_countP_le_one hu o.date k.store_id k.sku) ho
        (by simp [hkst, hksk])
    have hcell : cellRow obs o.date k = obsMeasures k.product_category o := by
      unfold cellRow
      rw [hfind]
    have hmem : obsMeasures k.product_category o ∈
        (datesFor s e).flatMap (fun d => (store_skus obs).map (cellRow obs d)) := by
      rw [← hcell]
      exact List.mem_flatMap.mpr ⟨o.date, hdmem o ho, List.mem_map.mpr ⟨k, hk, rfl⟩⟩
    have hge : 0 < ((datesFor s e).flatMap (fun d => (store_skus obs).map (cellRow obs d))).countP
        (fun r => r.date = o.date ∧ r.store_id = o.store_id ∧ r.sku = o.sku ∧
          r.total_sales_units = o.total_sales_units ∧
          r.on_hand_inventory_units = o.on_hand_inventory_units ∧
          r.replenishment_units = o.replenishment_units ∧
          r.inventory_pipeline = o.inventory_pipeline ∧
          r.units_in_transit = o.units_in_transit ∧
          r.units_in_dc = o.units_in_dc ∧
          r.units_on_order = o.units_on_order ∧
          r.units_under_promotion = o.units_under_promotion ∧
          r.shelf_capacity = o.shelf_capacity) := by
      rw [List.countP_pos_iff]
      exact ⟨obsMeasures k.product_category o, hmem, by simp [obsMeasures]⟩
    have hkeyc : ((datesFor s e).flatMap (fun d => (store_skus obs).map (cellRow obs d))).countP
        (fun r => r.date = o.date ∧ r.store_id = k.store_id ∧ r.sku = k.sku) = 1 :=
      countP_key_grid hdsnodup hksnodup (hdmem o ho) hk
    have hle : ((datesFor s e).flatMap (fun d => (store_skus obs).map (cellRow obs d))).countP
        (fun r => r.date = o.date ∧ r.store_id = o.store_id ∧ r.sku = o.sku ∧
          r.total_sales_units = o.total_sales_units ∧
          r.on_hand_inventory_units = o.on_hand_inventory_units ∧
          r.replenishment_units = o.replenishment_units ∧
          r.inventory_pipeline = o.inventory_pipeline ∧
          r.units_in_transit = o.units_in_transit ∧
          r.units_in_dc = o.units_in_dc ∧
          r.units_on_order = o.units_on_order ∧
          r.units_under_promotion = o.units_under_promotion ∧
          r.shelf_capacity = o.shelf_capacity) ≤
        ((datesFor s e).flatMap (fun d => (store_skus obs).map (cellRow obs d))).countP
        (fun r => r.date = o.date ∧ r.store_id = k.store_id ∧ r.sku = k.sku) := by
      apply List.countP_mono_left
      intro x hx hpx
      simp only [decide_eq_true_eq] at hpx ⊢
      refine ⟨hpx.1, ?_, ?_⟩
      · rw [hpx.2.1, ← hkst]
      · rw [hpx.2.2.1, ← hksk]
    exact Nat.le_antisymm (le_trans hle (le_of_eq hkeyc)) hge

/-- C4 amended witness: the one-observation grid holds exactly one row
carrying the observation's measures unchanged. -/
theorem C4_witness :
    (inventory_with_gaps [0] (store_skus [exSingle]) [exSingle]).countP
      (fun r => r.date = exSingle.date ∧ r.store_id = exSingle.store_id ∧
        r.sku = exSingle.sku ∧
        r.total_sales_units = exSingle.total_sales_units ∧
        r.on_hand_inventory_units = exSingle.on_hand_inventory_units ∧
        r.replenishment_units = exSingle.replenishment_units ∧
        r.inventory_pipeline = exSingle.inventory_pipeline ∧
        r.units_in_transit = exSingle.units_in_transit ∧
        r.units_in_dc = exSingle.units_in_dc ∧
        r.units_on_order = exSingle.units_on_order ∧
        r.units_under_promotion = exSingle.units_under_promotion ∧
        r.shelf_capacity = exSingle.shelf_capacity) = 1 :=
  (C4_observation_preservation (by decide) (rfl : dates [exSingle] = some [0])).2
    exSingle (by decide)

/-! ### Lemmas for idempotence of the pipeline -/

theorem projectObs_flagRow (r : Grid) : projectObs (flagRow r) = gridToObs r := rfl

theorem obsMeasures_gridToObs (r : Grid) :
    obsMeasures r.product_category (gridToObs r) = r := rfl

theorem gridToObs_date (r : Grid) : (gridToObs r).date = r.date := rfl

theorem gridToObs_store_id (r : Grid) : (gridToObs r).store_id = r.store_id := rfl

theorem gridToObs_sku (r : Grid) : (gridToObs r).sku = r.sku := rfl

theorem gridToObs_category (r : Grid) : (gridToObs r).product_category = r.product_category := rfl

theorem setF_getF (c : Field) (r : Grid) : setF c (getF c r) r = r := by
  cases c <;> rfl

theorem zeroFillRow_id_of_isSome {cs : List Field} {r : Grid}
    (h : ∀ c ∈ cs, (getF c r).isSome) : zeroFillRow cs r = r := by
  induction cs with
  | nil => rfl
  | cons c cs ih =>
    show zeroFillRow cs (setF c (some ((getF c r).getD 0)) r) = r
    have hc := h c (List.mem_cons_self ..)
    have hv : some ((getF c r).getD 0) = getF c r := by
      cases hg : getF c r with
      | none => rw [hg] at hc; simp at hc
      | some v => rfl
    rw [hv, setF_getF]
    exact ih (fun c' hc' => h c' (List.mem_cons_of_mem _ hc'))

theorem valAt_eq_none_of {c : Field} {g : List Grid} {st sk : Int} {d : Nat}
    (h : ∀ x ∈ g, ¬(x.date = d ∧ x.store_id = st ∧ x.sku = sk)) :
    valAt c g st sk d = none := by
  unfold valAt
  rw [List.find?_eq_none.mpr (fun x hx => by simpa using h x hx)]
  rfl

theorem specCarry_transfer {c : Field} {g2 G : List Grid} {st sk : Int} (s e : Nat)
    (hvalG : ∀ d', d' < s → valAt c G st sk d' = none)
    (hval : ∀ d', d' ≤ e → valAt c g2 st sk d' =
      if s ≤ d' then specCarry c G st sk d' else none) :
    ∀ d, d ≤ e → specCarry c g2 st sk d = specCarry c G st sk d := by
  have hGnone : ∀ d, d < s → specCarry c G st sk d = none := by
    intro d hd
    exact specCarry_eq_none (fun d' hd' => hvalG d' (by omega))
  intro d
  induction d with
  | zero =>
    intro hde
    rw [specCarry_zero, specCarry_zero, hval 0 hde]
    by_cases hs0 : s ≤ 0
    · rw [if_pos hs0, specCarry_zero]
    · rw [if_neg hs0]
      have := hvalG 0 (by omega)
      rw [this]
  | succ d ih =>
    intro hde
    rw [specCarry_succ, hval (d + 1) hde]
    by_cases hsd : s ≤ d + 1
    · rw [if_pos hsd]
      cases hG : specCarry c G st sk (d + 1) with
      | some v => rfl
      | none =>
        rw [specCarry_succ] at hG
        cases hv : valAt c G st sk (d + 1) with
        | some v => rw [hv] at hG; exact absurd hG (by simp)
        | none =>
          rw [hv] at hG
          rw [ih (by omega)]
          exact hG
    · rw [if_neg hsd]
      rw [ih (by omega)]
      rw [specCarry_succ, hvalG (d + 1) (by omega)]

theorem gridUniq_map {g : List Grid} (hg : GridUniq g) (f : Grid → Grid)
    (hf : ∀ r, (f r).date = r.date ∧ (f r).store_id = r.store_id ∧ (f r).sku = r.sku) :
    GridUniq (g.map f) := by
  refine List.Pairwise.map _ ?_ hg
  intro a b hab hcon
  apply hab
  rw [(hf a).1, (hf b).1, (hf a).2.1, (hf b).2.1, (hf a).2.2, (hf b).2.2] at hcon
  exact hcon

theorem distinctKeysAux_eq_nil_of_seen {l : List Obs} :
    ∀ {seen : List (Int × Int)}, (∀ o ∈ l, (o.store_id, o.sku) ∈ seen) →
      distinctKeysAux seen l = [] := by
  induction l with
  | nil => intro seen _; rfl
  | cons o l ih =>
    intro seen h
    unfold distinctKeysAux
    rw [if_pos (h o (List.mem_cons_self ..))]
    exact ih (fun x hx => h x (List.mem_cons_of_mem _ hx))

theorem distinctKeysAux_append_absorb {l₂ : List Obs} : ∀ {l₁ : List Obs}
    {seen : List (Int × Int)},
    (∀ o ∈ l₂, (o.store_id, o.sku) ∈ seen ∨
      ∃ o' ∈ l₁, (o'.store_id, o'.sku) = (o.store_id, o.sku)) →
    distinctKeysAux seen (l₁ ++ l₂) = distinctKeysAux seen l₁ := by
  intro l₁
  induction l₁ with
  | nil =>
    intro seen h
    rw [List.nil_append]
    show distinctKeysAux seen l₂ = []
    apply distinctKeysAux_eq_nil_of_seen
    intro o ho
    rcases h o ho with hs | ⟨o', ho', _⟩
    · exact hs
    · simp at ho'
  | cons o l₁ ih =>
    intro seen h
    rw [List.cons_append]
    unfold distinctKeysAux
    by_cases hs : (o.store_id, o.sku) ∈ seen
    · rw [if_pos hs, if_pos hs]
      apply ih
      intro x hx
      rcases h x hx with h1 | ⟨o', ho', heq⟩
      · exact Or.inl h1
      · rcases List.mem_cons.mp ho' with rfl | ho''
        · exact Or.inl (heq ▸ hs)
        · exact Or.inr ⟨o', ho'', heq⟩
    · rw [if_neg hs, if_neg hs]
      congr 1
      apply ih
      intro x hx
      rcases h x hx with h1 | ⟨o', ho', heq⟩
      · exact Or.inl (List.mem_cons_of_mem _ h1)
      · rcases List.mem_cons.mp ho' with rfl | ho''
        · exact Or.inl (heq ▸ List.mem_cons_self ..)
        · exact Or.inr ⟨o', ho'', heq⟩

theorem distinctKeysAux_block {rowF : SKey → Obs}
    (hkeyrow : ∀ k, ((rowF k).store_id, (rowF k).sku) = (k.store_id, k.sku)) :
    ∀ {ks : List SKey} {seen : List (Int × Int)},
      ((ks.map (fun k => (k.store_id, k.sku))).Nodup) →
      (∀ k ∈ ks, (k.store_id, k.sku) ∉ seen) →
      distinctKeysAux seen (ks.map rowF) = ks.map (fun k => (k.store_id, k.sku)) := by
  intro ks
  induction ks with
  | nil => intro seen _ _; rfl
  | cons k ks ih =>
    intro seen hnodup hunseen
    rw [List.map_cons]
    unfold distinctKeysAux
    rw [hkeyrow k]
    rw [if_neg (hunseen k (List.mem_cons_self ..))]
    rw [List.map_cons]
    congr 1
    rw [List.map_cons, List.nodup_cons] at hnodup
    apply ih hnodup.2
    intro k' hk' hmem
    rcases List.mem_cons.mp hmem with heq | hmem'
    · exact hnodup.1 (heq ▸ List.mem_map.mpr ⟨k', hk', rfl⟩)
    · exact hunseen k' (List.mem_cons_of_mem _ hk') hmem'

theorem lastCat_block {rowF : SKey → Obs}
    (hkeyrow : ∀ k, ((rowF k).store_id, (rowF k).sku) = (k.store_id, k.sku)) :
    ∀ {ks : List SKey}, ((ks.map (fun k => (k.store_id, k.sku))).Nodup) →
      ∀ {k : SKey}, k ∈ ks →
      lastCat (ks.map rowF) k.store_id k.sku = some ((rowF k).product_category) := by
  intro ks
  induction ks with
  | nil => intro _ k hk; simp at hk
  | cons k' ks ih =>
    intro hnodup k hk
    rw [List.map_cons, List.nodup_cons] at hnodup
    rw [List.map_cons, lastCat_cons]
    rcases List.mem_cons.mp hk with rfl | hk'
    · have hnone : lastCat (ks.map rowF) k.store_id k.sku = none := by
        rw [lastCat_eq_none_iff]
        intro x hx hcon
        obtain ⟨k2, hk2, rfl⟩ := List.mem_map.mp hx
        apply hnodup.1
        have h2 := hkeyrow k2
        rw [Prod.mk.injEq] at h2
        refine List.mem_map.mpr ⟨k2, hk2, ?_⟩
        rw [Prod.mk.injEq]
        exact ⟨h2.1.symm.trans hcon.1, h2.2.symm.trans hcon.2⟩
      rw [hnone]
      have hc := hkeyrow k
      rw [Prod.mk.injEq] at hc
      rw [if_pos ⟨hc.1, hc.2⟩]
    · rw [ih hnodup.2 hk']

theorem uniqueKeys_flatMap {rowF : Nat → SKey → Obs}
    (hdate : ∀ d k, (rowF d k).date = d)
    (hkey : ∀ d k, ((rowF d k).store_id, (rowF d k).sku) = (k.store_id, k.sku))
    {ds : List Nat} {ks : List SKey}
    (hds : ds.Nodup) (hks : (ks.map (fun k => (k.store_id, k.sku))).Nodup) :
    UniqueKeys (ds.flatMap (fun d => ks.map (rowF d))) := by
  induction ds with
  | nil => exact List.Pairwise.nil
  | cons d ds ih =>
    rw [List.flatMap_cons]
    unfold UniqueKeys
    rw [List.pairwise_append]
    rw [List.nodup_cons] at hds
    refine ⟨?_, ih hds.2, ?_⟩
    · rw [List.pairwise_map]
      refine (List.pairwise_map.mp hks).imp ?_
      intro k1 k2 hne hcon
      apply hne
      have h1 := hkey d k1
      have h2 := hkey d k2
      rw [Prod.mk.injEq] at h1 h2 ⊢
      exact ⟨h1.1.symm.trans (hcon.2.1.trans h2.1), h1.2.symm.trans (hcon.2.2.trans h2.2)⟩
    · intro a ha b hb hcon
      obtain ⟨k1, hk1, rfl⟩ := List.mem_map.mp ha
      obtain ⟨d2, hd2, hb2⟩ := List.mem_flatMap.mp hb
      obtain ⟨k2, hk2, rfl⟩ := List.mem_map.mp hb2
      apply hds.1
      have : d = d2 := by
        rw [← hdate d k1, ← hdate d2 k2]
        exact hcon.1
      rw [this]
      exact hd2

theorem datesFor_concat {s e : Nat} (hse : s ≤ e) :
    datesFor s e = (List.range (e - s)).map (fun i => s + i) ++ [e] := by
  unfold datesFor
  have : e - s + 1 = (e - s) + 1 := rfl
  rw [this, List.range_succ, List.map_append]
  congr 1
  rw [List.map_singleton]
  congr 1
  omega

theorem pipeline_eq {obs : List Obs} {ds : List Nat}
    (hu : UniqueKeys obs) (hds : dates obs = some ds) :
    pipeline obs = some ((cleanGrid obs ds).map flagRow) := by
  unfold pipeline
  rw [hds, Option.map_some']
  have h1 : inventory_with_gaps ds (store_skus obs) obs = gridOf obs ds := by
    rw [grid_eq hu]
    rfl
  rw [h1]
  have h2 : inventory_cleansed (gridOf obs ds) = cleanGrid obs ds := by
    rw [inventory_cleansed_eq_map]
    rfl
  rw [h2]
  rfl

theorem gridOf_uniq (obs : List Obs) (ds : List Nat) (hds : ds.Nodup) :
    GridUniq (gridOf obs ds) :=
  gridUniq_flatMap obs ds (store_skus obs) hds (store_skus_keys_nodup obs)

theorem cleanGrid_uniq (obs : List Obs) (ds : List Nat) (hds : ds.Nodup) :
    GridUniq (cleanGrid obs ds) :=
  gridUniq_map (gridOf_uniq obs ds hds) _
    (fun r => ⟨cleanRow_date .., cleanRow_store_id .., cleanRow_sku ..⟩)

theorem reobserved_eq (obs : List Obs) (ds : List Nat) :
    ((cleanGrid obs ds).map flagRow).map projectObs =
      ds.flatMap (fun d => (store_skus obs).map
        (fun k => gridToObs (cleanRow (gridOf obs ds) (cellRow obs d k)))) := by
  unfold cleanGrid
  rw [List.map_map, List.map_map]
  show (gridOf obs ds).map (fun x => gridToObs (cleanRow (gridOf obs ds) x)) = _
  conv_lhs => rw [gridOf]
  rw [List.map_flatMap]
  refine List.flatMap_congr (fun d _ => ?_)
  rw [List.map_map]
  rfl

theorem minDate_flatMap_dates {rowF : Nat → SKey → Obs}
    (hdate : ∀ d k, (rowF d k).date = d) {s e : Nat} (hse : s ≤ e)
    {ks : List SKey} (hne : ks ≠ []) :
    minDate ((datesFor s e).flatMap (fun d => ks.map (rowF d))) = some s ∧
    maxDate ((datesFor s e).flatMap (fun d => ks.map (rowF d))) = some e := by
  obtain ⟨k0, hk0⟩ := List.exists_mem_of_ne_nil ks hne
  have hub : ∀ o ∈ (datesFor s e).flatMap (fun d => ks.map (rowF d)),
      s ≤ o.date ∧ o.date ≤ e := by
    intro o ho
    obtain ⟨d, hd, ho2⟩ := List.mem_flatMap.mp ho
    obtain ⟨k, _, rfl⟩ := List.mem_map.mp ho2
    rw [hdate d k]
    exact (mem_datesFor hse).mp hd
  constructor
  · apply minDate_eq_of
    · refine ⟨rowF s k0, ?_, hdate s k0⟩
      exact List.mem_flatMap.mpr ⟨s, (mem_datesFor hse).mpr ⟨le_refl s, hse⟩,
        List.mem_map.mpr ⟨k0, hk0, rfl⟩⟩
    · exact fun o ho => (hub o ho).1
  · apply maxDate_eq_of
    · refine ⟨rowF e k0, ?_, hdate e k0⟩
      exact List.mem_flatMap.mpr ⟨e, (mem_datesFor hse).mpr ⟨hse, le_refl e⟩,
        List.mem_map.mpr ⟨k0, hk0, rfl⟩⟩
    · exact fun o ho => (hub o ho).2

theorem distinctKeys_flatMap {rowF : Nat → SKey → Obs}
    (hkey : ∀ d k, ((rowF d k).store_id, (rowF d k).sku) = (k.store_id, k.sku))
    {ds : List Nat} {ks : List SKey}
    (hks : (ks.map (fun k => (k.store_id, k.sku))).Nodup) (hne : ds ≠ []) :
    distinctKeys (ds.flatMap (fun d => ks.map (rowF d))) =
      ks.map (fun k => (k.store_id, k.sku)) := by
  cases ds with
  | nil => exact absurd rfl hne
  | cons d0 rest =>
    rw [List.flatMap_cons]
    unfold distinctKeys
    rw [distinctKeysAux_append_absorb ?habs]
    · exact distinctKeysAux_block (fun k => hkey d0 k) hks (by simp)
    case habs =>
      intro o ho
      obtain ⟨d, hd, ho2⟩ := List.mem_flatMap.mp ho
      obtain ⟨k, hk, rfl⟩ := List.mem_map.mp ho2
      right
      exact ⟨rowF d0 k, List.mem_map.mpr ⟨k, hk, rfl⟩, by rw [hkey d0 k, hkey d k]⟩

theorem lastCat_flatMap_last {rowF : Nat → SKey → Obs}
    (hkey : ∀ d k, ((rowF d k).store_id, (rowF d k).sku) = (k.store_id, k.sku))
    (ds : List Nat) (dlast : Nat) {ks : List SKey}
    (hks : (ks.map (fun k => (k.store_id, k.sku))).Nodup)
    {k : SKey} (hk : k ∈ ks) :
    lastCat ((ds ++ [dlast]).flatMap (fun d => ks.map (rowF d))) k.store_id k.sku =
      some ((rowF dlast k).product_category) := by
  rw [List.flatMap_append, lastCat_append]
  have hsing : List.flatMap [dlast] (fun d => ks.map (rowF d)) = ks.map (rowF dlast) := by
    rw [List.flatMap_cons]
    simp
  rw [hsing, lastCat_block (fun k => hkey dlast k) hks hk]

theorem store_skus_flatMap {rowF : Nat → SKey → Obs}
    (hkey : ∀ d k, ((rowF d k).store_id, (rowF d k).sku) = (k.store_id, k.sku))
    (hcat : ∀ d k, (rowF d k).product_category = k.product_category)
    (obs : List Obs) {s e : Nat} (hse : s ≤ e) :
    store_skus ((datesFor s e).flatMap (fun d => (store_skus obs).map (rowF d))) =
      store_skus obs := by
  have hks := store_skus_keys_nodup obs
  have hdk : distinctKeys ((datesFor s e).flatMap (fun d => (store_skus obs).map (rowF d))) =
      (store_skus obs).map (fun k => (k.store_id, k.sku)) :=
    distinctKeys_flatMap hkey hks (datesFor_ne_nil s e)
  show (distinctKeys _).map _ = store_skus obs
  rw [hdk, store_skus_keys obs]
  conv_rhs => rw [store_skus]
  apply List.map_congr_left
  intro p hp
  simp only [SKey.mk.injEq]
  refine ⟨trivial, trivial, ?_⟩
  have hkmem : (⟨p.1, p.2, (lastCat obs p.1 p.2).getD ""⟩ : SKey) ∈ store_skus obs :=
    List.mem_map.mpr ⟨p, hp, rfl⟩
  have hrw : datesFor s e = (List.range (e - s)).map (fun i => s + i) ++ [e] :=
    datesFor_concat hse
  have h1 := lastCat_flatMap_last hkey ((List.range (e - s)).map (fun i => s + i)) e
    hks hkmem
  rw [hcat e _] at h1
  rw [hrw]
  have h2 : lastCat ((((List.range (e - s)).map (fun i => s + i)) ++ [e]).flatMap
      (fun d => (store_skus obs).map (rowF d))) p.1 p.2 =
      some ((lastCat obs p.1 p.2).getD "") := h1
  rw [h2]
  obtain ⟨o, ho, hop⟩ := mem_distinctKeys.mp hp
  obtain ⟨c, hc⟩ := lastCat_eq_some ⟨o, ho, congrArg Prod.fst hop, congrArg Prod.snd hop⟩
  rw [hc]
  rfl

theorem map_gridOf (obs : List Obs) (ds : List Nat) (f : Grid → Grid) :
    (gridOf obs ds).map f =
      ds.flatMap (fun d => (store_skus obs).map (fun k => f (cellRow obs d k))) := by
  unfold gridOf
  rw [List.map_flatMap]
  refine List.flatMap_congr (fun d _ => ?_)
  rw [List.map_map]
  rfl

theorem cellRow_def (obs : List Obs) (d : Nat) (k : SKey) :
    cellRow obs d k =
      match obs.find? (fun o => o.date = d ∧ o.store_id = k.store_id ∧ o.sku = k.sku) with
      | some o => obsMeasures k.product_category o
      | none => nullCell d k := rfl

theorem inventory_with_gaps_reobserved {obs : List Obs} {ds : List Nat}
    (huniq2 : UniqueKeys (((cleanGrid obs ds).map flagRow).map projectObs)) :
    inventory_with_gaps ds (store_skus obs) (((cleanGrid obs ds).map flagRow).map projectObs) =
      cleanGrid obs ds := by
  rw [grid_eq huniq2]
  have hcell : ∀ d ∈ ds, ∀ k ∈ store_skus obs,
      cellRow (((cleanGrid obs ds).map flagRow).map projectObs) d k =
        cleanRow (gridOf obs ds) (cellRow obs d k) := by
    intro d hd k hk
    have hmem : gridToObs (cleanRow (gridOf obs ds) (cellRow obs d k)) ∈
        ((cleanGrid obs ds).map flagRow).map projectObs := by
      rw [reobserved_eq]
      exact List.mem_flatMap.mpr ⟨d, hd, List.mem_map.mpr ⟨k, hk, rfl⟩⟩
    have hpred : (fun x : Obs => decide (x.date = d ∧ x.store_id = k.store_id ∧ x.sku = k.sku))
        (gridToObs (cleanRow (gridOf obs ds) (cellRow obs d k))) = true := by
      simp only [gridToObs_date, gridToObs_store_id, gridToObs_sku, cleanRow_date,
        cleanRow_store_id, cleanRow_sku, cellRow_date, cellRow_store_id, cellRow_sku,
        decide_eq_true_eq]
      exact ⟨trivial, trivial, trivial⟩
    have hfind := countP_le_one_find?_eq (obs_countP_le_one huniq2 d k.store_id k.sku) hmem hpred
    rw [cellRow_def, hfind]
    have hcat : (cleanRow (gridOf obs ds) (cellRow obs d k)).product_category =
        k.product_category := by
      rw [cleanRow_category, cellRow_category]
    rw [← hcat]
    exact obsMeasures_gridToObs _
  have hrhs := map_gridOf obs ds (cleanRow (gridOf obs ds))
  refine Eq.trans ?_ hrhs.symm
  refine List.flatMap_congr (fun d hd => ?_)
  refine List.map_congr_left (fun k hk => ?_)
  exact hcell d hd k hk

theorem inventory_cleansed_cleanGrid {obs : List Obs} {s e : Nat}
    (hse : s ≤ e) :
    inventory_cleansed (cleanGrid obs (datesFor s e)) = cleanGrid obs (datesFor s e) := by
  have hGuniq : GridUniq (gridOf obs (datesFor s e)) :=
    gridOf_uniq obs _ (datesFor_nodup s e)
  have hg2uniq : GridUniq (cleanGrid obs (datesFor s e)) :=
    cleanGrid_uniq obs _ (datesFor_nodup s e)
  rw [inventory_cleansed_eq_map]
  have hpoint : ∀ y ∈ cleanGrid obs (datesFor s e),
      cleanRow (cleanGrid obs (datesFor s e)) y = y := by
    intro y hy
    unfold cleanGrid at hy
    obtain ⟨x, hx, rfl⟩ := List.mem_map.mp hy
    obtain ⟨d, hd, k, hk, rfl⟩ := mem_grid_iff.mp hx
    have hdmem := (mem_datesFor hse).mp hd
    have hkeyv : ∀ c : Field,
        (∀ (g : List Grid) (r : Grid),
          getF c (cleanRow g r) = ffValue c g r.store_id r.sku r.date) →
        ffValue c (cleanGrid obs (datesFor s e)) k.store_id k.sku d =
          getF c (cleanRow (gridOf obs (datesFor s e)) (cellRow obs d k)) := by
      intro c hcfield
      rw [ffValue_eq_specCarry hg2uniq]
      rw [specCarry_transfer s e ?hvalG ?hval d hdmem.2]
      · rw [hcfield (gridOf obs (datesFor s e)) (cellRow obs d k), cellRow_store_id,
          cellRow_sku, cellRow_date]
        rw [ffValue_eq_specCarry hGuniq]
      case hvalG =>
        intro d' hd'
        apply valAt_eq_none_of
        intro z hz hcon
        obtain ⟨d2, hd2, k2, hk2, rfl⟩ := mem_grid_iff.mp hz
        obtain ⟨hc1, -⟩ := hcon
        rw [cellRow_date] at hc1
        have h2 := (mem_datesFor hse).mp hd2
        omega
      case hval =>
        intro d' hde'
        by_cases hsd : s ≤ d'
        · rw [if_pos hsd]
          have hy'mem : cleanRow (gridOf obs (datesFor s e)) (cellRow obs d' k) ∈
              cleanGrid obs (datesFor s e) := by
            unfold cleanGrid
            refine List.mem_map.mpr ⟨cellRow obs d' k, ?_, rfl⟩
            unfold gridOf
            exact List.mem_flatMap.mpr ⟨d', (mem_datesFor hse).mpr ⟨hsd, hde'⟩,
              List.mem_map.mpr ⟨k, hk, rfl⟩⟩
          have hst' : (cleanRow (gridOf obs (datesFor s e)) (cellRow obs d' k)).store_id =
              k.store_id := by
            rw [cleanRow_store_id, cellRow_store_id]
          have hsk' : (cleanRow (gridOf obs (datesFor s e)) (cellRow obs d' k)).sku =
              k.sku := by
            rw [cleanRow_sku, cellRow_sku]
          have h1 : valAt c (cleanGrid obs (datesFor s e)) k.store_id k.sku
              (cleanRow (gridOf obs (datesFor s e)) (cellRow obs d' k)).date =
              getF c (cleanRow (gridOf obs (datesFor s e)) (cellRow obs d' k)) :=
            valAt_of_mem hg2uniq hy'mem hst' hsk'
          rw [cleanRow_date, cellRow_date] at h1
          rw [h1]
          rw [hcfield (gridOf obs (datesFor s e)) (cellRow obs d' k), cellRow_store_id,
            cellRow_sku, cellRow_date]
          rw [ffValue_eq_specCarry hGuniq]
        · rw [if_neg hsd]
          apply valAt_eq_none_of
          intro z hz hcon
          unfold cleanGrid at hz
          obtain ⟨x2, hx2, rfl⟩ := List.mem_map.mp hz
          obtain ⟨d2, hd2, k2, hk2, rfl⟩ := mem_grid_iff.mp hx2
          obtain ⟨hc1, -⟩ := hcon
          rw [cleanRow_date, cellRow_date] at hc1
          have h2 := (mem_datesFor hse).mp hd2
          omega
    have hON := hkeyv .on_hand_inventory_units cleanRow_on_hand
    have hSH := hkeyv .shelf_capacity cleanRow_shelf
    show zeroFillRow flow_fill_fields
        (setF .on_hand_inventory_units
          (ffValue .on_hand_inventory_units (cleanGrid obs (datesFor s e))
            (cleanRow (gridOf obs (datesFor s e)) (cellRow obs d k)).store_id
            (cleanRow (gridOf obs (datesFor s e)) (cellRow obs d k)).sku
            (cleanRow (gridOf obs (datesFor s e)) (cellRow obs d k)).date)
          (setF .shelf_capacity
            (ffValue .shelf_capacity (cleanGrid obs (datesFor s e))
              (cleanRow (gridOf obs (datesFor s e)) (cellRow obs d k)).store_id
              (cleanRow (gridOf obs (datesFor s e)) (cellRow obs d k)).sku
              (cleanRow (gridOf obs (datesFor s e)) (cellRow obs d k)).date)
            (cleanRow (gridOf obs (datesFor s e)) (cellRow obs d k)))) =
        cleanRow (gridOf obs (datesFor s e)) (cellRow obs d k)
    rw [cleanRow_store_id, cleanRow_sku, cleanRow_date, cellRow_store_id, cellRow_sku,
      cellRow_date]
    rw [hON, hSH]
    rw [setF_getF, setF_getF]
    apply zeroFillRow_id_of_isSome
    intro c hc
    rw [cleanRow_flow c _ _ hc]
    rfl
  calc (cleanGrid obs (datesFor s e)).map (cleanRow (cleanGrid obs (datesFor s e)))
      = (cleanGrid obs (datesFor s e)).map id := List.map_congr_left hpoint
    _ = cleanGrid obs (datesFor s e) := List.map_id _

/-- C10: the pipeline is idempotent. For a non-empty observation set
with unique (date, store_id, sku) keys (the data-model reading of an
Observation set), projecting the pipeline output back to observation
shape (dropping the two flag columns) and re-running the pipeline
returns exactly the same output: the grid is already dense, no nulls
remain that forward-fill or zero-fill could change, the key universe
and its categories are unchanged, and the flags are recomputed
identically. -/
theorem C10_idempotence {obs : List Obs} {out : List Final}
    (hu : UniqueKeys obs) (hout : pipeline obs = some out) :
    pipeline (out.map projectObs) = some out := by
  cases hds : dates obs with
  | none =>
    unfold pipeline at hout
    rw [hds] at hout
    exact absurd hout (by simp)
  | some ds =>
    obtain ⟨s, e, hs, he, hse, rfl⟩ := dates_eq_some hds
    have hpe := pipeline_eq hu hds
    rw [hout] at hpe
    have hout' : out = (cleanGrid obs (datesFor s e)).map flagRow := Option.some.inj hpe
    subst hout'
    have hobs_ne : obs ≠ [] := by
      intro hnil
      rw [hnil] at hs
      exact absurd hs (by simp [minDate_nil])
    have hksne : store_skus obs ≠ [] := by
      obtain ⟨o, ho⟩ := List.exists_mem_of_ne_nil obs hobs_ne
      intro hKSnil
      have hmem : (o.store_id, o.sku) ∈ distinctKeys obs :=
        mem_distinctKeys.mpr ⟨o, ho, rfl⟩
      rw [← store_skus_keys obs, hKSnil] at hmem
      simp at hmem
    have hre := reobserved_eq obs (datesFor s e)
    have hmm : minDate (((cleanGrid obs (datesFor s e)).map flagRow).map projectObs) = some s ∧
        maxDate (((cleanGrid obs (datesFor s e)).map flagRow).map projectObs) = some e := by
      rw [hre]
      exact minDate_flatMap_dates
        (fun d k => by rw [gridToObs_date, cleanRow_date, cellRow_date]) hse hksne
    have hds' : dates (((cleanGrid obs (datesFor s e)).map flagRow).map projectObs) =
        some (datesFor s e) := by
      unfold dates
      rw [hmm.1, hmm.2]
    have huniq2 : UniqueKeys (((cleanGrid obs (datesFor s e)).map flagRow).map projectObs) := by
      rw [hre]
      exact uniqueKeys_flatMap
        (fun d k => by rw [gridToObs_date, cleanRow_date, cellRow_date])
        (fun d k => by
          rw [gridToObs_store_id, gridToObs_sku, cleanRow_store_id, cleanRow_sku,
            cellRow_store_id, cellRow_sku])
        (datesFor_nodup s e) (store_skus_keys_nodup obs)
    have hsk' : store_skus (((cleanGrid obs (datesFor s e)).map flagRow).map projectObs) =
        store_skus obs := by
      rw [hre]
      exact store_skus_flatMap
        (fun d k => by
          rw [gridToObs_store_id, gridToObs_sku, cleanRow_store_id, cleanRow_sku,
            cellRow_store_id, cellRow_sku])
        (fun d k => by rw [gridToObs_category, cleanRow_category, cellRow_category])
        obs hse
    have hgaps := inventory_with_gaps_reobserved huniq2
    unfold pipeline
    rw [hds', Option.map_some', hsk', hgaps, inventory_cleansed_cleanGrid hse]
    rfl

/-- C10 witness: re-running the pipeline on the projected output of the
one-observation pipeline reproduces that output exactly. -/
theorem C10_witness :
    pipeline ((inventory_final (inventory_cleansed
        (inventory_with_gaps [0] (store_skus [exSingle]) [exSingle]))).map projectObs) =
      some (inventory_final (inventory_cleansed
        (inventory_with_gaps [0] (store_skus [exSingle]) [exSingle]))) :=
  C10_idempotence (by decide)
    (rfl : pipeline [exSingle] = some (inventory_final (inventory_cleansed
      (inventory_with_gaps [0] (store_skus [exSingle]) [exSingle]))))

end OSA
